import Mathlib

/-!
Verification development for the halodesk chat gateway
(`src-tauri/src/router.rs`, `src-tauri/src/storage.rs`).

Rust strings are embedded as `List Char`; byte streams as `List Nat`
(each entry `< 256`).  Fallible Rust functions returning `Result` are
embedded as `Except`.  Effectful inputs that the code obtains from the
environment (fresh UUIDs, `Utc::now()` timestamps) are passed as explicit
parameters.  The SQLite database is embedded as in-memory tables of rows;
an `INSERT` is an append, and the documented SQLite semantics of
`LIKE`, `ORDER BY ... DESC` on text and `LIMIT` (a negative limit meaning
"no limit") are modelled explicitly.
-/

deriving instance DecidableEq for Except

namespace Halodesk

/-- Whitespace predicate used to model Rust `str::trim` and the
whitespace skipped by `serde_json` (the ASCII whitespace subset). -/
def isWsChar (c : Char) : Bool :=
  c = ' ' || c = '\t' || c = '\n' || c = '\r'

/-- Model of Rust `str::trim`: remove leading and trailing whitespace. -/
def trimChars (s : List Char) : List Char :=
  ((s.dropWhile isWsChar).reverse.dropWhile isWsChar).reverse

/-- Message as in `models.rs`: `{role, content}`. -/
structure Msg where
  role : List Char
  content : List Char
deriving DecidableEq

/-- ImageData as in `models.rs`: `{mime, base64}`. -/
structure ImageData where
  mime : List Char
  base64 : List Char
deriving DecidableEq

/-- ChatRequest as in `models.rs`. -/
structure ChatRequest where
  preset_id : Option (List Char)
  messages : List Msg
  image : Option ImageData
  model_override : Option (List Char)
  stream : Option Bool
deriving DecidableEq

/-- ModelInfo as in `models.rs`. -/
structure ModelInfo where
  id : List Char
  label : List Char
  capability : List Char
deriving DecidableEq

/-- AppConfig as in `config.rs`. -/
structure AppConfig where
  text_default_model : List Char
  vision_default_model : List Char
  fallback_model : List Char
  models : List ModelInfo
deriving DecidableEq

/-- The default-model part of `resolve_model` (`router.rs` lines 139-149),
reached when `model_override` is absent or blank. -/
def resolveModelDefaults (req : ChatRequest) (config : AppConfig) :
    Except (List Char) (List Char) :=
  if req.image.isSome then
    if (trimChars config.vision_default_model).isEmpty then
      Except.error ("Vision default model not set.".toList)
    else Except.ok config.vision_default_model
  else
    if (trimChars config.text_default_model).isEmpty then
      Except.error ("Text default model not set.".toList)
    else Except.ok config.text_default_model

/-- `resolve_model` from `router.rs` (lines 132-150): override (trimmed)
when non-blank, else vision default when an image is attached, else text
default; a blank relevant default is an error. -/
def resolveModel (req : ChatRequest) (config : AppConfig) :
    Except (List Char) (List Char) :=
  match req.model_override with
  | some ov =>
    if ¬ (trimChars ov).isEmpty then Except.ok (trimChars ov)
    else resolveModelDefaults req config
  | none => resolveModelDefaults req config

/-- The literal prefix `"openrouter:"` from `split_provider`. -/
def orTag : List Char := "openrouter:".toList

/-- `split_provider` from `router.rs` (lines 123-130): both branches name
provider `"openrouter"`; the prefix, when present, is stripped. -/
def splitProvider (modelId : List Char) : List Char × List Char :=
  if orTag.isPrefixOf modelId then
    ("openrouter".toList, modelId.drop orTag.length)
  else
    ("openrouter".toList, modelId)

/-- The guard `provider != "openrouter"` of the chat handler
(`router.rs` lines 90-97) that routes to the `provider_unsupported`
error response. -/
def chatProviderRejected (modelId : List Char) : Bool :=
  (splitProvider modelId).1 ≠ "openrouter".toList

/-- Model of Rust `Iterator::rposition`: the index of the last element
satisfying the predicate. -/
def rposition (p : α → Bool) : List α → Option Nat
  | [] => none
  | a :: l =>
    match rposition p l with
    | some i => some (i + 1)
    | none => if p a then some 0 else none

/-- Content of an outbound OpenRouter message (`router.rs` lines 164-168):
either a plain JSON string, or the two-part array built by
`to_openrouter_messages` — a text part and an `image_url` part whose url
is the data URI. -/
inductive ORContent where
  | plain (text : List Char)
  | parts (text : List Char) (url : List Char)
deriving DecidableEq

/-- `OpenRouterMessage` from `router.rs`. -/
structure ORMsg where
  role : List Char
  content : ORContent
deriving DecidableEq

/-- The data URI `format!("data:{};base64,{}", img.mime, img.base64)`
built in `to_openrouter_messages`. -/
def dataUri (img : ImageData) : List Char :=
  "data:".toList ++ img.mime ++ ";base64,".toList ++ img.base64

/-- The indexed loop of `to_openrouter_messages` (`router.rs` lines
182-201): walks the messages with the running index and the
`image_attached` flag, rewriting the message at `lastUser` into two-part
form when an image is present and not yet attached. -/
def attachLoop (image : Option ImageData) (lastUser : Option Nat) :
    List Msg → Nat → Bool → List ORMsg × Bool
  | [], _, attached => ([], attached)
  | m :: rest, idx, attached =>
    match image with
    | some img =>
      if lastUser = some idx ∧ attached = false then
        let out := attachLoop (some img) lastUser rest (idx + 1) true
        (⟨m.role, ORContent.parts m.content (dataUri img)⟩ :: out.1, out.2)
      else
        let out := attachLoop (some img) lastUser rest (idx + 1) attached
        (⟨m.role, ORContent.plain m.content⟩ :: out.1, out.2)
    | none =>
      let out := attachLoop none lastUser rest (idx + 1) attached
      (⟨m.role, ORContent.plain m.content⟩ :: out.1, out.2)

/-- `to_openrouter_messages` from `router.rs` (lines 177-217): rewrite the
last `"user"` message to carry the image; if no message received it,
append a synthetic user message holding only the image. -/
def toOpenrouterMessages (messages : List Msg) (image : Option ImageData) :
    List ORMsg :=
  let lastUser := rposition (fun m => m.role = "user".toList) messages
  let out := attachLoop image lastUser messages 0 false
  match image with
  | some img =>
    if out.2 = false then
      out.1 ++ [⟨"user".toList, ORContent.parts [] (dataUri img)⟩]
    else out.1
  | none => out.1

/-- Strict lexicographic order on char lists.  Codepoint order coincides
with the UTF-8 byte order used by SQLite text comparison and by
serde_json's `BTreeMap` key order. -/
def lexLt : List Char → List Char → Bool
  | [], [] => false
  | [], _ :: _ => true
  | _ :: _, [] => false
  | a :: as, b :: bs => decide (a < b) || (a = b && lexLt as bs)

/-- Model of `serde_json::Value`.  Numbers keep their raw source text:
no claim in this development compares or re-prints numeric values, only
parse success/failure and string extraction matter. -/
inductive JVal where
  | null
  | bool (b : Bool)
  | num (raw : List Char)
  | str (s : List Char)
  | arr (items : List JVal)
  | obj (entries : List (List Char × JVal))

/-- Sorted-map insert modelling `BTreeMap` entry insertion during parsing;
on an equal key the existing (later-inserted, see `parseEntries`) value is
kept, so later duplicates win as in serde_json. -/
def insertKey (k : List Char) (v : JVal) :
    List (List Char × JVal) → List (List Char × JVal)
  | [] => [(k, v)]
  | (k2, v2) :: rest =>
    if lexLt k k2 then (k, v) :: (k2, v2) :: rest
    else if k = k2 then (k2, v2) :: rest
    else (k2, v2) :: insertKey k v rest

/-- Value of a hex digit, if any. -/
def hexVal (c : Char) : Option Nat :=
  if '0' ≤ c ∧ c ≤ '9' then some (c.toNat - '0'.toNat)
  else if 'a' ≤ c ∧ c ≤ 'f' then some (c.toNat - 'a'.toNat + 10)
  else if 'A' ≤ c ∧ c ≤ 'F' then some (c.toNat - 'A'.toNat + 10)
  else none

/-- Body of a JSON string after the opening quote: unescapes, rejects raw
control characters and lone surrogates, combines surrogate pairs, and
returns the content together with the input after the closing quote. -/
def parseStringBody : List Char → Option (List Char × List Char)
  | [] => none
  | '"' :: rest => some ([], rest)
  | '\\' :: rest =>
    match rest with
    | '"' :: r => (parseStringBody r).map (fun p => ('"' :: p.1, p.2))
    | '\\' :: r => (parseStringBody r).map (fun p => ('\\' :: p.1, p.2))
    | '/' :: r => (parseStringBody r).map (fun p => ('/' :: p.1, p.2))
    | 'b' :: r => (parseStringBody r).map (fun p => (Char.ofNat 8 :: p.1, p.2))
    | 'f' :: r => (parseStringBody r).map (fun p => (Char.ofNat 12 :: p.1, p.2))
    | 'n' :: r => (parseStringBody r).map (fun p => ('\n' :: p.1, p.2))
    | 'r' :: r => (parseStringBody r).map (fun p => ('\r' :: p.1, p.2))
    | 't' :: r => (parseStringBody r).map (fun p => ('\t' :: p.1, p.2))
    | 'u' :: h1 :: h2 :: h3 :: h4 :: r =>
      match hexVal h1, hexVal h2, hexVal h3, hexVal h4 with
      | some a, some b, some c, some d =>
        let n := ((a * 16 + b) * 16 + c) * 16 + d
        if 0xD800 ≤ n ∧ n ≤ 0xDBFF then
          match r with
          | '\\' :: 'u' :: g1 :: g2 :: g3 :: g4 :: r2 =>
            match hexVal g1, hexVal g2, hexVal g3, hexVal g4 with
            | some a2, some b2, some c2, some d2 =>
              let m := ((a2 * 16 + b2) * 16 + c2) * 16 + d2
              if 0xDC00 ≤ m ∧ m ≤ 0xDFFF then
                (parseStringBody r2).map (fun p =>
                  (Char.ofNat (0x10000 + (n - 0xD800) * 0x400 + (m - 0xDC00)) :: p.1, p.2))
              else none
            | _, _, _, _ => none
          | _ => none
        else if 0xDC00 ≤ n ∧ n ≤ 0xDFFF then none
        else (parseStringBody r).map (fun p => (Char.ofNat n :: p.1, p.2))
      | _, _, _, _ => none
    | _ => none
  | c :: rest =>
    if c.toNat < 32 then none
    else (parseStringBody rest).map (fun p => (c :: p.1, p.2))

/-- ASCII decimal digit predicate. -/
def isDigitCh (c : Char) : Bool := decide ('0' ≤ c) && decide (c ≤ '9')

/-- Optional fraction part of a JSON number. -/
def parseFracPart (s : List Char) : Option (List Char × List Char) :=
  match s with
  | '.' :: r =>
    let ds := r.takeWhile isDigitCh
    if ds.isEmpty then none else some ('.' :: ds, r.dropWhile isDigitCh)
  | _ => some ([], s)

/-- Optional exponent part of a JSON number. -/
def parseExpPart (s : List Char) : Option (List Char × List Char) :=
  match s with
  | c :: r =>
    if c = 'e' ∨ c = 'E' then
      let sg : List Char × List Char :=
        match r with
        | '+' :: r2 => (['+'], r2)
        | '-' :: r2 => (['-'], r2)
        | _ => ([], r)
      let ds := sg.2.takeWhile isDigitCh
      if ds.isEmpty then none
      else some (c :: sg.1 ++ ds, sg.2.dropWhile isDigitCh)
    else some ([], s)
  | [] => some ([], s)

/-- A JSON number token (grammar check only; raw text kept). -/
def parseNumRaw (s : List Char) : Option (List Char × List Char) :=
  let sp : List Char × List Char :=
    match s with
    | '-' :: r => (['-'], r)
    | _ => ([], s)
  match sp.2 with
  | [] => none
  | c :: r =>
    let ip : Option (List Char × List Char) :=
      if c = '0' then some (['0'], r)
      else if isDigitCh c then some (c :: r.takeWhile isDigitCh, r.dropWhile isDigitCh)
      else none
    match ip with
    | none => none
    | some (ids, s2) =>
      match parseFracPart s2 with
      | none => none
      | some (fds, s3) =>
        match parseExpPart s3 with
        | none => none
        | some (eds, s4) => some (sp.1 ++ ids ++ fds ++ eds, s4)

/-- Skip JSON whitespace. -/
def skipWs (s : List Char) : List Char := s.dropWhile isWsChar

mutual

/-- Fuel-indexed recursive-descent JSON value parser modelling
`serde_json::from_str::<Value>`. -/
def parseVal : Nat → List Char → Option (JVal × List Char)
  | 0, _ => none
  | fuel + 1, s =>
    match skipWs s with
    | 'n' :: 'u' :: 'l' :: 'l' :: r => some (JVal.null, r)
    | 't' :: 'r' :: 'u' :: 'e' :: r => some (JVal.bool true, r)
    | 'f' :: 'a' :: 'l' :: 's' :: 'e' :: r => some (JVal.bool false, r)
    | '"' :: r => (parseStringBody r).map (fun p => (JVal.str p.1, p.2))
    | '[' :: r =>
      match skipWs r with
      | ']' :: r2 => some (JVal.arr [], r2)
      | r2 => (parseItems fuel r2).map (fun p => (JVal.arr p.1, p.2))
    | '\x7b' :: r =>
      match skipWs r with
      | '\x7d' :: r2 => some (JVal.obj [], r2)
      | r2 => (parseEntries fuel r2).map (fun p => (JVal.obj p.1, p.2))
    | r => (parseNumRaw r).map (fun p => (JVal.num p.1, p.2))

/-- Comma-separated array items up to the closing bracket. -/
def parseItems : Nat → List Char → Option (List JVal × List Char)
  | 0, _ => none
  | fuel + 1, s =>
    match parseVal fuel s with
    | none => none
    | some (v, r) =>
      match skipWs r with
      | ',' :: r2 => (parseItems fuel r2).map (fun p => (v :: p.1, p.2))
      | ']' :: r2 => some ([v], r2)
      | _ => none

/-- Comma-separated object entries up to the closing brace, collected
into the sorted-map representation. -/
def parseEntries : Nat → List Char → Option (List (List Char × JVal) × List Char)
  | 0, _ => none
  | fuel + 1, s =>
    match skipWs s with
    | '"' :: r =>
      match parseStringBody r with
      | none => none
      | some (k, r2) =>
        match skipWs r2 with
        | ':' :: r3 =>
          match parseVal fuel r3 with
          | none => none
          | some (v, r4) =>
            match skipWs r4 with
            | ',' :: r5 => (parseEntries fuel r5).map (fun p => (insertKey k v p.1, p.2))
            | '\x7d' :: r5 => some ([(k, v)], r5)
            | _ => none
        | _ => none
    | _ => none

end

/-- `serde_json::from_str::<Value>`: a full parse with only trailing
whitespace allowed.  The fuel `2 * length + 2` bounds the recursion
depth: every two nested calls consume at least one input character. -/
def parseJson (s : List Char) : Option JVal :=
  match parseVal (2 * s.length + 2) s with
  | some (v, r) => if (skipWs r).isEmpty then some v else none
  | none => none

/-- `Value::get(key)` — `Some` only on an object holding the key. -/
def jGet (v : JVal) (k : List Char) : Option JVal :=
  match v with
  | JVal.obj entries => (entries.find? (fun e => decide (e.1 = k))).map (fun e => e.2)
  | _ => none

/-- `Value::index` with a string key: missing key or non-object gives
`Null`. -/
def jIdx (v : JVal) (k : List Char) : JVal := (jGet v k).getD JVal.null

/-- `Value::index` with an array position: out of range or non-array
gives `Null`. -/
def jAt (v : JVal) (i : Nat) : JVal :=
  match v with
  | JVal.arr items => items.getD i JVal.null
  | _ => JVal.null

/-- `Value::as_str`. -/
def asStr (v : JVal) : Option (List Char) :=
  match v with
  | JVal.str s => some s
  | _ => none

/-- Lowercase hex digit. -/
def hexDigitLower (n : Nat) : Char :=
  if n < 10 then Char.ofNat ('0'.toNat + n) else Char.ofNat ('a'.toNat + n - 10)

/-- serde_json string escaping: quote, backslash, and the control
characters (short escapes for the common ones, `\u00XX` otherwise). -/
def escapeJChar (c : Char) : List Char :=
  if c = '"' then ['\\', '"']
  else if c = '\\' then ['\\', '\\']
  else if c = Char.ofNat 8 then ['\\', 'b']
  else if c = '\t' then ['\\', 't']
  else if c = '\n' then ['\\', 'n']
  else if c = Char.ofNat 12 then ['\\', 'f']
  else if c = '\r' then ['\\', 'r']
  else if c.toNat < 32 then
    ['\\', 'u', '0', '0', hexDigitLower (c.toNat / 16), hexDigitLower (c.toNat % 16)]
  else [c]

/-- A serialized JSON string literal. -/
def jString (s : List Char) : List Char :=
  '"' :: (s.map escapeJChar).flatten ++ ['"']

mutual

/-- Compact `Value::to_string` (serde_json): object keys in map order,
no added whitespace. -/
def jToString : JVal → List Char
  | JVal.null => "null".toList
  | JVal.bool true => "true".toList
  | JVal.bool false => "false".toList
  | JVal.num raw => raw
  | JVal.str s => jString s
  | JVal.arr items => '[' :: jToStringItems items ++ [']']
  | JVal.obj entries => '\x7b' :: jToStringEntries entries ++ ['\x7d']

/-- Serialized array items, comma separated. -/
def jToStringItems : List JVal → List Char
  | [] => []
  | [v] => jToString v
  | v :: rest => jToString v ++ ',' :: jToStringItems rest

/-- Serialized object entries, comma separated. -/
def jToStringEntries : List (List Char × JVal) → List Char
  | [] => []
  | [(k, v)] => jString k ++ ':' :: jToString v
  | (k, v) :: rest => jString k ++ ':' :: jToString v ++ ',' :: jToStringEntries rest

end

/-- The Unicode replacement character emitted by lossy decoding. -/
def replChar : Char := Char.ofNat 0xFFFD

/-- Allowed second byte of a three-byte UTF-8 sequence (E0 and ED have
restricted ranges, excluding overlongs and surrogates). -/
def utf8Cont3Ok (b b2 : Nat) : Bool :=
  if b = 0xE0 then 0xA0 ≤ b2 ∧ b2 ≤ 0xBF
  else if b = 0xED then 0x80 ≤ b2 ∧ b2 ≤ 0x9F
  else 0x80 ≤ b2 ∧ b2 ≤ 0xBF

/-- Allowed second byte of a four-byte UTF-8 sequence. -/
def utf8Cont4Ok (b b2 : Nat) : Bool :=
  if b = 0xF0 then 0x90 ≤ b2 ∧ b2 ≤ 0xBF
  else if b = 0xF4 then 0x80 ≤ b2 ∧ b2 ≤ 0x8F
  else 0x80 ≤ b2 ∧ b2 ≤ 0xBF

/-- Fuel-indexed body of the lossy UTF-8 decoder; every recursive call
consumes at least one byte, so fuel `length + 1` always suffices. -/
def utf8LossyF : Nat → List Nat → List Char
  | 0, _ => []
  | _, [] => []
  | fuel + 1, b :: rest =>
    if b < 0x80 then Char.ofNat b :: utf8LossyF fuel rest
    else if 0xC2 ≤ b ∧ b ≤ 0xDF then
      match rest with
      | b2 :: rest2 =>
        if 0x80 ≤ b2 ∧ b2 ≤ 0xBF then
          Char.ofNat ((b - 0xC0) * 0x40 + (b2 - 0x80)) :: utf8LossyF fuel rest2
        else replChar :: utf8LossyF fuel rest
      | [] => [replChar]
    else if 0xE0 ≤ b ∧ b ≤ 0xEF then
      match rest with
      | b2 :: rest2 =>
        if utf8Cont3Ok b b2 then
          match rest2 with
          | b3 :: rest3 =>
            if 0x80 ≤ b3 ∧ b3 ≤ 0xBF then
              Char.ofNat ((b - 0xE0) * 0x1000 + (b2 - 0x80) * 0x40 + (b3 - 0x80)) ::
                utf8LossyF fuel rest3
            else replChar :: utf8LossyF fuel rest2
          | [] => [replChar]
        else replChar :: utf8LossyF fuel rest
      | [] => [replChar]
    else if 0xF0 ≤ b ∧ b ≤ 0xF4 then
      match rest with
      | b2 :: rest2 =>
        if utf8Cont4Ok b b2 then
          match rest2 with
          | b3 :: rest3 =>
            if 0x80 ≤ b3 ∧ b3 ≤ 0xBF then
              match rest3 with
              | b4 :: rest4 =>
                if 0x80 ≤ b4 ∧ b4 ≤ 0xBF then
                  Char.ofNat ((b - 0xF0) * 0x40000 + (b2 - 0x80) * 0x1000 +
                    (b3 - 0x80) * 0x40 + (b4 - 0x80)) :: utf8LossyF fuel rest4
                else replChar :: utf8LossyF fuel rest3
              | [] => [replChar]
            else replChar :: utf8LossyF fuel rest2
          | [] => [replChar]
        else replChar :: utf8LossyF fuel rest
      | [] => [replChar]
    else replChar :: utf8LossyF fuel rest

/-- Model of Rust `String::from_utf8_lossy` (the chunk decode at
`router.rs` line 285): standard UTF-8 decoding where each maximal invalid
subpart becomes one replacement character — in particular a multi-byte
character truncated at the end of a chunk becomes a replacement
character, and a stray continuation byte at the start of the next chunk
becomes another. -/
def utf8Lossy (bytes : List Nat) : List Char :=
  utf8LossyF (bytes.length + 1) bytes

/-- UTF-8 encoding of one character (how upstream text appears on the
wire). -/
def utf8EncodeChar (c : Char) : List Nat :=
  let n := c.toNat
  if n < 0x80 then [n]
  else if n < 0x800 then [0xC0 + n / 0x40, 0x80 + n % 0x40]
  else if n < 0x10000 then
    [0xE0 + n / 0x1000, 0x80 + (n / 0x40) % 0x40, 0x80 + n % 0x40]
  else
    [0xF0 + n / 0x40000, 0x80 + (n / 0x1000) % 0x40, 0x80 + (n / 0x40) % 0x40,
      0x80 + n % 0x40]

/-- UTF-8 encoding of a character sequence. -/
def utf8Encode (s : List Char) : List Nat := (s.map utf8EncodeChar).flatten

/-- Per-stream decoder state of `stream_openrouter` (`router.rs` lines
271-273): the persistent byte buffer (held as decoded text, as in the
source), the accumulated full text, and the tracked finish reason
(initially `"stop"`). -/
structure DecState where
  buffer : List Char
  full : List Char
  finish : List Char
deriving DecidableEq

/-- Observable actions of one streaming chat turn: the three outbound SSE
event kinds plus the history write (`storage::store_history`, whose other
arguments — request messages, model id, provider — are fixed for the
stream; the write is recorded with the accumulated text it persists). -/
inductive Ev where
  | meta (model : List Char) (provider : List Char)
  | delta (text : List Char)
  | store (full : List Char)
  | done (finish : List Char) (error : Option (List Char))
deriving DecidableEq

/-- First frame of the buffer: the text before the first `"\n\n"` and
the text after it, mirroring `buffer.find("\n\n")` and the two slices at
`router.rs` lines 287-293. -/
def splitFrame : List Char → Option (List Char × List Char)
  | [] => none
  | [_] => none
  | a :: b :: rest =>
    if a = '\n' ∧ b = '\n' then some ([], rest)
    else
      match splitFrame (b :: rest) with
      | some (blk, r) => some (a :: blk, r)
      | none => none

/-- The tag `"data:"` stripped from frame lines. -/
def dataTag : List Char := "data:".toList

/-- `line.strip_prefix("data:")`. -/
def stripDataTag (line : List Char) : Option (List Char) :=
  if dataTag.isPrefixOf line then some (line.drop dataTag.length) else none

/-- Strip one trailing carriage return (the `\r` handling of Rust
`str::lines`). -/
def stripCrEnd (l : List Char) : List Char :=
  if l.getLast? = some '\r' then l.dropLast else l

/-- Model of Rust `str::lines`: split at `'\n'`, drop the empty final
fragment produced by a trailing newline, and strip `'\r'` only from
lines that were terminated by `'\n'`. -/
def linesOf (block : List Char) : List (List Char) :=
  let parts := block.splitOn '\n'
  match parts.getLast? with
  | some last =>
    if last.isEmpty then parts.dropLast.map stripCrEnd
    else parts.dropLast.map stripCrEnd ++ [last]
  | none => []

/-- `value["choices"][0]["finish_reason"].as_str()`. -/
def frameFinishReason (v : JVal) : Option (List Char) :=
  asStr (jIdx (jAt (jIdx v ("choices".toList)) 0) ("finish_reason".toList))

/-- `value["choices"][0]["delta"]["content"].as_str()`. -/
def frameDelta (v : JVal) : Option (List Char) :=
  asStr (jIdx (jIdx (jAt (jIdx v ("choices".toList)) 0) ("delta".toList))
    ("content".toList))

/-- The `for line in block.lines()` body of `stream_openrouter`
(`router.rs` lines 295-319): non-`data:` lines are skipped, the `[DONE]`
sentinel triggers the history write plus the terminal event and stops
the stream (third component `true`), unparseable payloads are skipped,
a parsed payload first updates the finish reason and then emits and
accumulates a non-empty delta. -/
def procLines : DecState → List (List Char) → DecState × List Ev × Bool
  | st, [] => (st, [], false)
  | st, line :: rest =>
    match stripDataTag line with
    | none => procLines st rest
    | some data0 =>
      let data := trimChars data0
      if data = "[DONE]".toList then
        (st, [Ev.store st.full, Ev.done st.finish none], true)
      else
        match parseJson data with
        | none => procLines st rest
        | some v =>
          let st1 := { st with finish := (frameFinishReason v).getD st.finish }
          match frameDelta v with
          | some d =>
            if d.isEmpty then procLines st1 rest
            else
              let st2 := { st1 with full := st1.full ++ d }
              let out := procLines st2 rest
              (out.1, Ev.delta d :: out.2.1, out.2.2)
          | none => procLines st1 rest

/-- The `loop` of `stream_openrouter` (`router.rs` lines 286-320):
repeatedly extract a complete frame from the buffer and process its
lines, until no full frame remains or the `[DONE]` sentinel stopped the
stream.  Fuel-indexed; every iteration shortens the buffer by at least
two characters, so any fuel at least the buffer length is enough. -/
def runFrames : Nat → DecState → DecState × List Ev × Bool
  | 0, st => (st, [], false)
  | fuel + 1, st =>
    match splitFrame st.buffer with
    | none => (st, [], false)
    | some (block, rest) =>
      let out1 := procLines { st with buffer := rest } (linesOf block)
      if out1.2.2 then out1
      else
        let out2 := runFrames fuel out1.1
        (out2.1, out1.2.1 ++ out2.2.1, out2.2.2)

/-- One `Ok` chunk: append the decoded text to the buffer and drain all
complete frames (`router.rs` lines 285-320). -/
def feedChunk (st : DecState) (chars : List Char) : DecState × List Ev × Bool :=
  runFrames (st.buffer ++ chars).length { st with buffer := st.buffer ++ chars }

/-- Continuation of a frame-loop outcome by one more chunk: a halted
stream ignores it (only its leftover buffer grows); otherwise the chunk
is fed and the traces concatenate.  Helper for stating that buffered
frame decoding composes chunk by chunk. -/
def feedNext (out : DecState × List Ev × Bool) (b : List Char) :
    DecState × List Ev × Bool :=
  if out.2.2 then ({ out.1 with buffer := out.1.buffer ++ b }, out.2.1, true)
  else
    ((feedChunk out.1 b).1, out.2.1 ++ (feedChunk out.1 b).2.1,
      (feedChunk out.1 b).2.2)

/-- The `while let Some(chunk) = bytes_stream.next()` loop plus the
after-loop epilogue of `stream_openrouter` (`router.rs` lines 275-325):
a transport error ends the stream with a terminal error event and no
history write; `[DONE]` inside a chunk stops after its write and
terminal event; exhaustion of the chunks triggers the write and the
terminal event with the tracked finish reason. -/
def runChunks : DecState → List (Except (List Char) (List Nat)) → List Ev
  | st, [] => [Ev.store st.full, Ev.done st.finish none]
  | _, Except.error e :: _ => [Ev.done ("error".toList) (some e)]
  | st, Except.ok bytes :: rest =>
    let out := feedChunk st (utf8Lossy bytes)
    if out.2.2 then out.2.1 else out.2.1 ++ runChunks out.1 rest

/-- Initial decoder state (`router.rs` lines 271-273). -/
def initDecState : DecState := ⟨[], [], "stop".toList⟩

/-- The full observable trace of one streaming chat turn
(`router.rs` lines 267-326): the synthetic `meta` event followed by the
chunk-loop trace. -/
def streamEvents (modelId : List Char)
    (chunks : List (Except (List Char) (List Nat))) : List Ev :=
  Ev.meta modelId ("openrouter".toList) :: runChunks initDecState chunks

/-- A concrete upstream SSE frame whose delta text is the two-byte UTF-8
character `é`: byte 39 of its encoding is the lead byte `0xC3`. -/
def cexFrame : List Char :=
  "data: \x7b\"choices\":[\x7b\"delta\":\x7b\"content\":\"é\"\x7d\x7d]\x7d\n\n".toList

/-- Number of history writes recorded in a trace. -/
def countStore (evs : List Ev) : Nat :=
  (evs.filter fun e => match e with | Ev.store _ => true | _ => false).length

/-- Number of terminal (`done`) events in a trace. -/
def countDone (evs : List Ev) : Nat :=
  (evs.filter fun e => match e with | Ev.done _ _ => true | _ => false).length

/-- Whether an optional event is a terminal event carrying an error. -/
def isErrorDone : Option Ev → Bool
  | some (Ev.done _ (some _)) => true
  | _ => false

/-- Whether an optional event is a terminal event. -/
def isDoneEv : Option Ev → Bool
  | some (Ev.done _ _) => true
  | _ => false

/-- Row of the `history` table (`storage.rs` schema lines 14-20). -/
structure HistoryRow where
  id : List Char
  created_at : List Char
  messages_json : List Char
  model : Option (List Char)
  provider : Option (List Char)
deriving DecidableEq

/-- Row of the `pinned` table (`storage.rs` lines 21-26). -/
structure PinnedRow where
  id : List Char
  created_at : List Char
  text : List Char
  tags_json : Option (List Char)
deriving DecidableEq

/-- Row of the `presets` table (`storage.rs` lines 27-34). -/
structure PresetRow where
  id : List Char
  created_at : List Char
  name : List Char
  system_prompt : Option (List Char)
  constraints_json : Option (List Char)
  routing_policy_json : Option (List Char)
deriving DecidableEq

/-- Row of the `settings` table (`storage.rs` lines 35-40). -/
structure SettingsRow where
  id : List Char
  created_at : List Char
  key : List Char
  value_json : List Char
deriving DecidableEq

/-- The four tables of the embedded database; an `INSERT` is an append. -/
structure Tables where
  history : List HistoryRow
  pinned : List PinnedRow
  presets : List PresetRow
  settings : List SettingsRow
deriving DecidableEq

/-- serde serialization of one `Message` (struct fields in declaration
order, compact). -/
def serializeMsg (m : Msg) : List Char :=
  '\x7b' :: "\"role\":".toList ++ jString m.role ++
    ",\"content\":".toList ++ jString m.content ++ ['\x7d']

/-- `serde_json::to_string` of a message list. -/
def serializeMessages (msgs : List Msg) : List Char :=
  '[' :: (List.intersperse [','] (msgs.map serializeMsg)).flatten ++ [']']

/-- `storage::store_history` (`storage.rs` lines 46-70): append the
assistant reply as a trailing `"assistant"` message when it is non-blank
after trimming, then insert one history row.  The fresh UUID and the
`Utc::now()` RFC3339 timestamp are passed in as `id` and `createdAt`. -/
def storeHistory (tbl : Tables) (messages : List Msg) (assistant : List Char)
    (model provider : List Char) (id createdAt : List Char) : Tables :=
  let all := messages ++
    (if (trimChars assistant).isEmpty then [] else [⟨"assistant".toList, assistant⟩])
  { tbl with history :=
      tbl.history ++ [⟨id, createdAt, serializeMessages all, some model, some provider⟩] }

/-- `MemoryStoreRequest` from `models.rs` (`r#type` and a loose JSON
payload). -/
structure MemoryStoreRequest where
  type : List Char
  payload : JVal

/-- `MemoryStoreResponse` from `models.rs`. -/
structure MemoryStoreResponse where
  id : List Char
  stored_at : List Char
deriving DecidableEq

/-- `storage::memory_store` (`storage.rs` lines 72-151): dispatch on the
kind string; each supported kind maps payload fields (with its defaults)
into one inserted row; any other kind returns the `Unsupported memory
type.` error before any insert, leaving the tables unchanged. -/
def memoryStore (req : MemoryStoreRequest) (id createdAt : List Char)
    (tbl : Tables) : Tables × Except (List Char) MemoryStoreResponse :=
  if req.type = "history".toList then
    ({ tbl with history :=
        tbl.history ++ [⟨id, createdAt, jToString req.payload, none, none⟩] },
      Except.ok ⟨id, createdAt⟩)
  else if req.type = "pinned".toList then
    let text := ((jGet req.payload ("text".toList)).bind asStr).getD []
    let tags := ((jGet req.payload ("tags".toList)).map jToString).getD ("[]".toList)
    ({ tbl with pinned := tbl.pinned ++ [⟨id, createdAt, text, some tags⟩] },
      Except.ok ⟨id, createdAt⟩)
  else if req.type = "preset".toList then
    let name := ((jGet req.payload ("name".toList)).bind asStr).getD ("Untitled".toList)
    let sp := ((jGet req.payload ("system_prompt".toList)).bind asStr).getD []
    let cons := ((jGet req.payload ("constraints".toList)).map jToString).getD
      ("\x7b\x7d".toList)
    let rout := ((jGet req.payload ("routing_policy".toList)).map jToString).getD
      ("\x7b\x7d".toList)
    ({ tbl with presets :=
        tbl.presets ++ [⟨id, createdAt, name, some sp, some cons, some rout⟩] },
      Except.ok ⟨id, createdAt⟩)
  else if req.type = "settings".toList then
    let key := ((jGet req.payload ("key".toList)).bind asStr).getD ("unknown".toList)
    let val := ((jGet req.payload ("value".toList)).map jToString).getD ("null".toList)
    ({ tbl with settings := tbl.settings ++ [⟨id, createdAt, key, val⟩] },
      Except.ok ⟨id, createdAt⟩)
  else (tbl, Except.error ("Unsupported memory type.".toList))

/-- ASCII-only case folding, as used by SQLite's default `LIKE`. -/
def foldAsciiChar (c : Char) : Char :=
  if 'A' ≤ c ∧ c ≤ 'Z' then Char.ofNat (c.toNat + 32) else c

/-- Fuel-indexed SQLite `LIKE` matcher (`%` any sequence, `_` one
character, ASCII-case-insensitive); every recursive call shortens
pattern-plus-text, so fuel `|pattern| + |text| + 1` always suffices. -/
def likeMatchF : Nat → List Char → List Char → Bool
  | 0, _, _ => false
  | fuel + 1, p, t =>
    match p, t with
    | [], [] => true
    | [], _ :: _ => false
    | '%' :: p2, t =>
      likeMatchF fuel p2 t ||
        (match t with
         | [] => false
         | _ :: t2 => likeMatchF fuel ('%' :: p2) t2)
    | '_' :: p2, t =>
      (match t with
       | [] => false
       | _ :: t2 => likeMatchF fuel p2 t2)
    | c :: p2, t =>
      (match t with
       | [] => false
       | d :: t2 => decide (foldAsciiChar c = foldAsciiChar d) && likeMatchF fuel p2 t2)

/-- `text LIKE pattern` (SQLite semantics, no escape clause). -/
def sqlLike (pat text : List Char) : Bool :=
  likeMatchF (pat.length + text.length + 1) pat text

/-- The pattern `format!("%{}%", req.query)` of `memory_query`. -/
def likePattern (q : List Char) : List Char := '%' :: q ++ ['%']

/-- Descending ordered insert on a text key (the building block of
`ORDER BY created_at DESC`). -/
def orderedInsertDesc (key : α → List Char) (a : α) : List α → List α
  | [] => [a]
  | b :: l =>
    if lexLt (key a) (key b) then b :: orderedInsertDesc key a l
    else a :: b :: l

/-- `ORDER BY key DESC` as an insertion sort (SQLite leaves the order of
equal keys unspecified; this model fixes one). -/
def sortDesc (key : α → List Char) : List α → List α
  | [] => []
  | b :: l => orderedInsertDesc key b (sortDesc key l)

/-- SQLite `LIMIT n` with an `i64` bind: a negative limit means no
limit. -/
def applyLimit (limit : Int) (l : List α) : List α :=
  if limit < 0 then l else l.take limit.toNat

/-- `MemoryQueryRequest` from `models.rs`. -/
structure MemoryQueryRequest where
  query : List Char
  limit : Option Int

/-- `MemoryItem` from `models.rs`: a record kind tag and a loose JSON
payload. -/
structure MemoryItem where
  type : List Char
  payload : JVal

/-- An optional text as a JSON value (`json!` of an `Option<String>`). -/
def optStrJ : Option (List Char) → JVal
  | some s => JVal.str s
  | none => JVal.null

/-- The `json!` payload built for a history row (`storage.rs` lines
179-190); object keys in `BTreeMap` (sorted) order; the messages text is
re-parsed, falling back to the raw string. -/
def historyItem (r : HistoryRow) : MemoryItem :=
  ⟨"history".toList, JVal.obj [
    ("created_at".toList, JVal.str r.created_at),
    ("id".toList, JVal.str r.id),
    ("messages".toList, (parseJson r.messages_json).getD (JVal.str r.messages_json)),
    ("model".toList, optStrJ r.model),
    ("provider".toList, optStrJ r.provider)]⟩

/-- The `json!` payload built for a pinned row (`storage.rs` lines
205-218); unparseable or missing tags fall back to the empty array. -/
def pinnedItem (r : PinnedRow) : MemoryItem :=
  ⟨"pinned".toList, JVal.obj [
    ("created_at".toList, JVal.str r.created_at),
    ("id".toList, JVal.str r.id),
    ("tags".toList, (r.tags_json.bind parseJson).getD (JVal.arr [])),
    ("text".toList, JVal.str r.text)]⟩

/-- The `json!` payload built for a preset row (`storage.rs` lines
235-253); unparseable or missing structured fields fall back to empty
objects. -/
def presetItem (r : PresetRow) : MemoryItem :=
  ⟨"preset".toList, JVal.obj [
    ("constraints".toList, (r.constraints_json.bind parseJson).getD (JVal.obj [])),
    ("created_at".toList, JVal.str r.created_at),
    ("id".toList, JVal.str r.id),
    ("name".toList, JVal.str r.name),
    ("routing_policy".toList, (r.routing_policy_json.bind parseJson).getD (JVal.obj [])),
    ("system_prompt".toList, optStrJ r.system_prompt)]⟩

/-- Row results of the history-table query of `memory_query`
(`storage.rs` lines 164-175): `WHERE messages_json LIKE ?1 ORDER BY
created_at DESC LIMIT ?2`. -/
def histRowsFor (req : MemoryQueryRequest) (tbl : Tables) : List HistoryRow :=
  applyLimit (req.limit.getD 20)
    (sortDesc (fun r : HistoryRow => r.created_at)
      (tbl.history.filter (fun r => sqlLike (likePattern req.query) r.messages_json)))

/-- Row results of the pinned-table query (`storage.rs` lines 193-203):
`WHERE text LIKE ?1 ORDER BY created_at DESC LIMIT ?2`. -/
def pinnedRowsFor (req : MemoryQueryRequest) (tbl : Tables) : List PinnedRow :=
  applyLimit (req.limit.getD 20)
    (sortDesc (fun r : PinnedRow => r.created_at)
      (tbl.pinned.filter (fun r => sqlLike (likePattern req.query) r.text)))

/-- Row results of the presets-table query (`storage.rs` lines 221-233):
`WHERE name LIKE ?1 ORDER BY created_at DESC LIMIT ?2`. -/
def presetRowsFor (req : MemoryQueryRequest) (tbl : Tables) : List PresetRow :=
  applyLimit (req.limit.getD 20)
    (sortDesc (fun r : PresetRow => r.created_at)
      (tbl.presets.filter (fun r => sqlLike (likePattern req.query) r.name)))

/-- The history-table query of `memory_query` (`storage.rs` lines
164-191): substring match on `messages_json`, newest first, limited. -/
def queryHistoryPart (req : MemoryQueryRequest) (tbl : Tables) : List MemoryItem :=
  (histRowsFor req tbl).map historyItem

/-- The pinned-table query of `memory_query` (`storage.rs` lines
193-219): substring match on `text`, newest first, limited. -/
def queryPinnedPart (req : MemoryQueryRequest) (tbl : Tables) : List MemoryItem :=
  (pinnedRowsFor req tbl).map pinnedItem

/-- The presets-table query of `memory_query` (`storage.rs` lines
221-254): substring match on `name`, newest first, limited. -/
def queryPresetPart (req : MemoryQueryRequest) (tbl : Tables) : List MemoryItem :=
  (presetRowsFor req tbl).map presetItem

/-- `storage::memory_query` (`storage.rs` lines 153-260): the three
per-table result lists concatenated in the fixed order history, pinned,
preset (the settings table is never queried). -/
def memoryQuery (req : MemoryQueryRequest) (tbl : Tables) : List MemoryItem :=
  queryHistoryPart req tbl ++ queryPinnedPart req tbl ++ queryPresetPart req tbl

/-- The `choices[0].message.content` extraction of `complete_openrouter`
(`router.rs` lines 379-382): a missing or non-string content becomes the
empty string. -/
def completeContent (body : JVal) : List Char :=
  (asStr (jIdx (jIdx (jAt (jIdx body ("choices".toList)) 0) ("message".toList))
    ("content".toList))).getD []

/-- The buffered-mode JSON response `{text, model, provider}`
(`router.rs` lines 388-392). -/
structure CompleteResponse where
  text : List Char
  model : List Char
  provider : List Char
deriving DecidableEq

/-- Tail of `complete_openrouter` after a success status and a parsed
body (`router.rs` lines 375-393): extract the content, write one history
record, and return the response. -/
def completeOpenrouter (req : ChatRequest) (modelId : List Char) (body : JVal)
    (id createdAt : List Char) (tbl : Tables) : Tables × CompleteResponse :=
  let content := completeContent body
  (storeHistory tbl req.messages content modelId ("openrouter".toList) id createdAt,
    ⟨content, modelId, "openrouter".toList⟩)

/-- Number of messages in an outbound list that carry the image part. -/
def countImageParts (l : List ORMsg) : Nat :=
  (l.filter fun m =>
    match m.content with
    | ORContent.parts _ _ => true
    | ORContent.plain _ => false).length

/-- A message passed through unchanged (its content as a plain JSON
string). -/
def plainOR (m : Msg) : ORMsg := ⟨m.role, ORContent.plain m.content⟩

/-!  Theorems.  -/

/-- C4: for every model identifier the extracted provider is
`"openrouter"`; with the literal `"openrouter:"` prefix the model is the
identifier with exactly that prefix stripped, and otherwise the model is
the identifier unchanged. -/
theorem splitProvider_spec (s : List Char) :
    (splitProvider s).1 = "openrouter".toList ∧
    (∀ rest, s = orTag ++ rest → (splitProvider s).2 = rest) ∧
    (¬ orTag.isPrefixOf s → (splitProvider s).2 = s) := by
  refine ⟨?_, ?_, ?_⟩
  · unfold splitProvider; split <;> rfl
  · intro rest h
    subst h
    unfold splitProvider
    rw [if_pos]
    · simp [orTag]
    · exact List.isPrefixOf_iff_prefix.mpr (List.prefix_append _ _)
  · intro h
    unfold splitProvider
    rw [if_neg (by simpa using h)]

/-- C4 witness: the prefixed identifier is stripped; an identifier with
embedded colons and no prefix stays whole. -/
theorem splitProvider_spec_witness :
    (splitProvider ("openrouter:openai/gpt-4o-mini".toList)).2 =
      "openai/gpt-4o-mini".toList ∧
    (splitProvider ("nvidia/nemotron-3-nano-30b-a3b:free".toList)).2 =
      "nvidia/nemotron-3-nano-30b-a3b:free".toList := by
  constructor
  · exact (splitProvider_spec _).2.1 ("openai/gpt-4o-mini".toList) (by decide)
  · exact (splitProvider_spec _).2.2 (by decide)

/-- C5: for every input the extracted provider equals `"openrouter"`, so
the `provider_unsupported` rejection guard of the chat handler can never
fire. -/
theorem chatProviderRejected_never (s : List Char) :
    chatProviderRejected s = false ∧ (splitProvider s).1 = "openrouter".toList := by
  refine ⟨?_, (splitProvider_spec s).1⟩
  unfold chatProviderRejected splitProvider
  split <;> simp

/-- C3 (amended): resolution policy — a non-blank override is used after
trimming (regardless of an attached image); otherwise an image selects
the vision default and no image the text default, each failing when the
relevant default is blank. -/
theorem resolveModel_policy (req : ChatRequest) (config : AppConfig) :
    (∀ ov, req.model_override = some ov → (trimChars ov).isEmpty = false →
      resolveModel req config = Except.ok (trimChars ov)) ∧
    ((∀ ov, req.model_override = some ov → (trimChars ov).isEmpty = true) →
      ((req.image.isSome = true →
        ((trimChars config.vision_default_model).isEmpty = true →
          resolveModel req config =
            Except.error ("Vision default model not set.".toList)) ∧
        ((trimChars config.vision_default_model).isEmpty = false →
          resolveModel req config = Except.ok config.vision_default_model)) ∧
      (req.image.isSome = false →
        ((trimChars config.text_default_model).isEmpty = true →
          resolveModel req config =
            Except.error ("Text default model not set.".toList)) ∧
        ((trimChars config.text_default_model).isEmpty = false →
          resolveModel req config = Except.ok config.text_default_model)))) := by
  constructor
  · intro ov hov hne
    unfold resolveModel
    rw [hov]
    simp [hne]
  · intro hblank
    have hdef : resolveModel req config = resolveModelDefaults req config := by
      unfold resolveModel
      cases hov : req.model_override with
      | none => rfl
      | some ov => simp [hblank ov hov]
    rw [hdef]
    unfold resolveModelDefaults
    constructor
    · intro himg
      rw [himg]
      constructor <;> intro hv <;> simp [hv]
    · intro himg
      rw [himg]
      constructor <;> intro ht <;> simp [ht]

/-- C3 witness: a non-blank override resolves to itself (trimmed form
equals itself here) even though the request carries an image. -/
theorem resolveModel_policy_witness :
    resolveModel
      ⟨none, [], some ⟨"image/png".toList, "abc".toList⟩,
        some ("openrouter:override".toList), some true⟩
      ⟨"openrouter:text-default".toList, "openrouter:vision-default".toList,
        "openrouter:fallback".toList, []⟩ =
      Except.ok ("openrouter:override".toList) := by
  have h := (resolveModel_policy
    ⟨none, [], some ⟨"image/png".toList, "abc".toList⟩,
      some ("openrouter:override".toList), some true⟩
    ⟨"openrouter:text-default".toList, "openrouter:vision-default".toList,
      "openrouter:fallback".toList, []⟩).1
    ("openrouter:override".toList) rfl (by decide)
  rw [h]
  decide

/-- C3 counterexample: the claim says a non-blank override is used
verbatim, but the code returns the trimmed override — on override
`" m "` the resolver yields `"m"`, not `" m "`. -/
theorem resolveModel_not_verbatim :
    resolveModel ⟨none, [], none, some (" m ".toList), some true⟩
        ⟨"t".toList, "v".toList, "f".toList, []⟩ ≠
      Except.ok (" m ".toList) ∧
    resolveModel ⟨none, [], none, some (" m ".toList), some true⟩
        ⟨"t".toList, "v".toList, "f".toList, []⟩ =
      Except.ok ("m".toList) := by
  decide

/-- C7: a store request with a kind outside history/pinned/preset/settings
fails with the unsupported-type error and leaves every table unchanged. -/
theorem memoryStore_unsupported (req : MemoryStoreRequest) (id ts : List Char)
    (tbl : Tables)
    (h1 : req.type ≠ "history".toList) (h2 : req.type ≠ "pinned".toList)
    (h3 : req.type ≠ "preset".toList) (h4 : req.type ≠ "settings".toList) :
    memoryStore req id ts tbl = (tbl, Except.error ("Unsupported memory type.".toList)) := by
  unfold memoryStore
  rw [if_neg h1, if_neg h2, if_neg h3, if_neg h4]

/-- C7 witness: kind `"bogus"` fails and writes nothing. -/
theorem memoryStore_unsupported_witness :
    memoryStore ⟨"bogus".toList, JVal.null⟩ ("id".toList) ("ts".toList)
      ⟨[], [], [], []⟩ =
      (⟨[], [], [], []⟩, Except.error ("Unsupported memory type.".toList)) :=
  memoryStore_unsupported _ _ _ _ (by decide) (by decide) (by decide) (by decide)

/-- C9 (amended): the written history record appends one assistant
message exactly when the assistant text is non-blank after trimming
(a whitespace-only reply is not appended), and otherwise carries the
input message list unchanged. -/
theorem storeHistory_assistant_append (tbl : Tables) (messages : List Msg)
    (assistant model provider id ts : List Char) :
    ((trimChars assistant).isEmpty = false →
      storeHistory tbl messages assistant model provider id ts =
        { tbl with history := tbl.history ++
            [⟨id, ts, serializeMessages (messages ++ [⟨"assistant".toList, assistant⟩]),
              some model, some provider⟩] }) ∧
    ((trimChars assistant).isEmpty = true →
      storeHistory tbl messages assistant model provider id ts =
        { tbl with history := tbl.history ++
            [⟨id, ts, serializeMessages messages, some model, some provider⟩] }) := by
  constructor <;> intro h <;> unfold storeHistory <;> simp [h]

/-- C9 witness: a non-blank reply is appended; a blank config writes the
input list only. -/
theorem storeHistory_assistant_append_witness :
    storeHistory ⟨[], [], [], []⟩ [] ("Hello".toList) ("m".toList) ("p".toList)
        ("i".toList) ("t".toList) =
      ⟨[⟨"i".toList, "t".toList,
          serializeMessages [⟨"assistant".toList, "Hello".toList⟩],
          some ("m".toList), some ("p".toList)⟩], [], [], []⟩ :=
  (storeHistory_assistant_append ⟨[], [], [], []⟩ [] ("Hello".toList) ("m".toList)
    ("p".toList) ("i".toList) ("t".toList)).1 (by decide)

/-- C9 counterexample: the claim appends the assistant message whenever
the text is non-empty, but on the whitespace-only (non-empty) reply
`" "` the code writes the input list unchanged (`"[]"` here), not a list
holding the assistant message. -/
theorem storeHistory_blank_not_appended :
    (storeHistory ⟨[], [], [], []⟩ [] (" ".toList) ("m".toList) ("p".toList)
        ("i".toList) ("t".toList)).history.map (fun r => r.messages_json) =
      ["[]".toList] ∧
    " ".toList ≠ ([] : List Char) ∧
    "[]".toList ≠ serializeMessages [⟨"assistant".toList, " ".toList⟩] := by
  decide

/-- C10: in buffered mode, a success body with no string at
`choices[0].message.content` still succeeds with empty text and still
writes one history record whose message list is the request's messages
with nothing appended. -/
theorem completeOpenrouter_missing_content (req : ChatRequest) (modelId : List Char)
    (body : JVal) (id ts : List Char) (tbl : Tables)
    (h : asStr (jIdx (jIdx (jAt (jIdx body ("choices".toList)) 0) ("message".toList))
      ("content".toList)) = none) :
    (completeOpenrouter req modelId body id ts tbl).2 =
      ⟨[], modelId, "openrouter".toList⟩ ∧
    (completeOpenrouter req modelId body id ts tbl).1.history =
      tbl.history ++
        [⟨id, ts, serializeMessages req.messages, some modelId,
          some ("openrouter".toList)⟩] := by
  have hc : completeContent body = [] := by
    unfold completeContent
    rw [h]
    rfl
  unfold completeOpenrouter
  rw [hc]
  exact ⟨rfl, by unfold storeHistory; simp [trimChars, isWsChar]⟩

/-- C10 witness: a `null` body (no `choices` at all) yields the empty
text and a record with exactly the request messages. -/
theorem completeOpenrouter_missing_content_witness :
    (completeOpenrouter ⟨none, [⟨"user".toList, "hi".toList⟩], none, none, none⟩
        ("m".toList) JVal.null ("i".toList) ("t".toList) ⟨[], [], [], []⟩).2 =
      ⟨[], "m".toList, "openrouter".toList⟩ ∧
    (completeOpenrouter ⟨none, [⟨"user".toList, "hi".toList⟩], none, none, none⟩
        ("m".toList) JVal.null ("i".toList) ("t".toList) ⟨[], [], [], []⟩).1.history =
      [⟨"i".toList, "t".toList,
        serializeMessages [⟨"user".toList, "hi".toList⟩], some ("m".toList),
        some ("openrouter".toList)⟩] := by
  have h := completeOpenrouter_missing_content
    ⟨none, [⟨"user".toList, "hi".toList⟩], none, none, none⟩ ("m".toList) JVal.null
    ("i".toList) ("t".toList) ⟨[], [], [], []⟩ rfl
  exact ⟨h.1, by rw [h.2]; rfl⟩

theorem rposition_eq_none (p : α → Bool) (l : List α)
    (h : ∀ y ∈ l, p y = false) : rposition p l = none := by
  induction l with
  | nil => rfl
  | cons a t ih =>
    unfold rposition
    rw [ih (fun y hy => h y (List.mem_cons_of_mem a hy))]
    simp [h a (List.mem_cons_self a t)]

theorem rposition_last (p : α → Bool) (pre : List α) (x : α) (post : List α)
    (hx : p x = true) (hpost : ∀ y ∈ post, p y = false) :
    rposition p (pre ++ x :: post) = some pre.length := by
  induction pre with
  | nil =>
    simp only [List.nil_append, List.length_nil]
    unfold rposition
    rw [rposition_eq_none p post hpost]
    simp [hx]
  | cons a t ih =>
    simp only [List.cons_append, List.length_cons]
    unfold rposition
    rw [ih]

theorem attachLoop_none_img (lu : Option Nat) (msgs : List Msg) (i : Nat)
    (att : Bool) :
    attachLoop none lu msgs i att = (msgs.map plainOR, att) := by
  induction msgs generalizing i with
  | nil => rfl
  | cons m rest ih => simp [attachLoop, ih, plainOR]

theorem attachLoop_attached (img : ImageData) (lu : Option Nat) (msgs : List Msg)
    (i : Nat) :
    attachLoop (some img) lu msgs i true = (msgs.map plainOR, true) := by
  induction msgs generalizing i with
  | nil => rfl
  | cons m rest ih =>
    unfold attachLoop
    dsimp only
    rw [if_neg (by simp)]
    simp [ih, plainOR]

theorem attachLoop_no_user (img : ImageData) (msgs : List Msg) (i : Nat)
    (att : Bool) :
    attachLoop (some img) none msgs i att = (msgs.map plainOR, att) := by
  induction msgs generalizing i att with
  | nil => rfl
  | cons m rest ih =>
    unfold attachLoop
    dsimp only
    rw [if_neg (by simp)]
    simp [ih, plainOR]

theorem attachLoop_split (img : ImageData) (pre : List Msg) (mj : Msg)
    (post : List Msg) (i : Nat) :
    attachLoop (some img) (some (i + pre.length)) (pre ++ mj :: post) i false =
      (pre.map plainOR ++
        ⟨mj.role, ORContent.parts mj.content (dataUri img)⟩ :: post.map plainOR,
        true) := by
  induction pre generalizing i with
  | nil =>
    rw [List.nil_append]
    unfold attachLoop
    dsimp only
    rw [if_pos (by simp)]
    simp [attachLoop_attached]
  | cons a t ih =>
    rw [List.cons_append]
    unfold attachLoop
    dsimp only
    rw [if_neg (by simp)]
    have harith : i + (a :: t).length = (i + 1) + t.length := by
      simp [List.length_cons]; omega
    rw [harith]
    simp [ih (i + 1), plainOR]

theorem countImageParts_map_plain (l : List Msg) :
    countImageParts (l.map plainOR) = 0 := by
  induction l with
  | nil => rfl
  | cons m rest ih => simp [countImageParts, plainOR, List.filter, ih]

theorem countImageParts_append (a b : List ORMsg) :
    countImageParts (a ++ b) = countImageParts a + countImageParts b := by
  simp [countImageParts, List.filter_append]

theorem attachLoop_count (img : ImageData) (lu : Option Nat) (msgs : List Msg)
    (i : Nat) :
    countImageParts (attachLoop (some img) lu msgs i false).1 =
      (if (attachLoop (some img) lu msgs i false).2 then 1 else 0) := by
  induction msgs generalizing i with
  | nil => rfl
  | cons m rest ih =>
    unfold attachLoop
    dsimp only
    by_cases hc : lu = some i
    · rw [if_pos (by simp [hc])]
      simp [attachLoop_attached, countImageParts, List.filter]
      have := countImageParts_map_plain rest
      simpa [countImageParts] using this
    · rw [if_neg (by simp [hc])]
      simpa [countImageParts, List.filter] using ih (i + 1)

/-- C6: with no image every message passes through unchanged; with an
image and no user message a synthetic user message holding only the
image is appended at the end; with an image the message whose role is
`"user"` and after which no user message follows (the last user message)
is the only one rewritten, into its original text plus the image part
with the data URI, all others passing through unchanged; and exactly one
outbound message carries the image. -/
theorem toOpenrouterMessages_spec (messages : List Msg) (img : ImageData) :
    toOpenrouterMessages messages none = messages.map plainOR ∧
    (rposition (fun m => m.role = "user".toList) messages = none →
      toOpenrouterMessages messages (some img) =
        messages.map plainOR ++ [⟨"user".toList, ORContent.parts [] (dataUri img)⟩]) ∧
    (∀ pre mj post, messages = pre ++ mj :: post → mj.role = "user".toList →
      (∀ y ∈ post, y.role ≠ "user".toList) →
      toOpenrouterMessages messages (some img) =
        pre.map plainOR ++
          ⟨mj.role, ORContent.parts mj.content (dataUri img)⟩ :: post.map plainOR) ∧
    countImageParts (toOpenrouterMessages messages (some img)) = 1 := by
  refine ⟨?_, ?_, ?_, ?_⟩
  · simp only [toOpenrouterMessages]
    rw [attachLoop_none_img]
  · intro hnone
    simp only [toOpenrouterMessages]
    rw [hnone, attachLoop_no_user]
    simp
  · intro pre mj post hm hu hpost
    subst hm
    simp only [toOpenrouterMessages]
    rw [rposition_last _ pre mj post (by simp [hu])
      (fun y hy => decide_eq_false (hpost y hy))]
    have hsplit := attachLoop_split img pre mj post 0
    rw [Nat.zero_add] at hsplit
    rw [hsplit]
    simp
  · simp only [toOpenrouterMessages]
    cases hr : rposition (fun m => m.role = "user".toList) messages with
    | none =>
      rw [attachLoop_no_user]
      simp [countImageParts_append, countImageParts_map_plain, countImageParts,
        List.filter, plainOR]
    | some j =>
      have hcnt := attachLoop_count img (some j) messages 0
      by_cases hfl : (attachLoop (some img) (some j) messages 0 false).2 = true
      · rw [hfl] at hcnt
        simp only [hfl]
        simpa using hcnt
      · have hfl2 : (attachLoop (some img) (some j) messages 0 false).2 = false := by
          simpa using hfl
        rw [hfl2] at hcnt
        simp only [Bool.false_eq_true, if_false] at hcnt
        have hsyn : countImageParts
            [⟨"user".toList, ORContent.parts [] (dataUri img)⟩] = 1 := rfl
        simp only [hfl2]
        simp [countImageParts_append, hcnt]
        exact hsyn

/-- C6 witness: the image lands on the second (last) user message only,
as in the repository's own test. -/
theorem toOpenrouterMessages_spec_witness :
    toOpenrouterMessages
        [⟨"user".toList, "First".toList⟩, ⟨"assistant".toList, "Ack".toList⟩,
          ⟨"user".toList, "Second".toList⟩]
        (some ⟨"image/png".toList, "abc".toList⟩) =
      [⟨"user".toList, ORContent.plain ("First".toList)⟩,
        ⟨"assistant".toList, ORContent.plain ("Ack".toList)⟩,
        ⟨"user".toList, ORContent.parts ("Second".toList)
          ("data:image/png;base64,abc".toList)⟩] := by
  have h := (toOpenrouterMessages_spec
    [⟨"user".toList, "First".toList⟩, ⟨"assistant".toList, "Ack".toList⟩,
      ⟨"user".toList, "Second".toList⟩] ⟨"image/png".toList, "abc".toList⟩).2.2.1
    [⟨"user".toList, "First".toList⟩, ⟨"assistant".toList, "Ack".toList⟩]
    ⟨"user".toList, "Second".toList⟩ [] rfl rfl (by simp)
  rw [h]
  rfl

theorem lexLt_asymm (a : List Char) : ∀ b, lexLt a b = true → lexLt b a = false := by
  induction a with
  | nil =>
    intro b h
    cases b with
    | nil => simp [lexLt] at h
    | cons y bs => simp [lexLt]
  | cons x as ih =>
    intro b h
    cases b with
    | nil => simp [lexLt] at h
    | cons y bs =>
      simp only [lexLt, Bool.or_eq_true, decide_eq_true_eq, Bool.and_eq_true] at h
      simp only [lexLt, Bool.or_eq_false_iff, decide_eq_false_iff_not,
        Bool.and_eq_false_iff]
      rcases h with hlt | ⟨heq, hr⟩
      · refine ⟨lt_asymm hlt, Or.inl ?_⟩
        intro hyx
        rw [hyx] at hlt
        exact lt_irrefl x hlt
      · subst heq
        exact ⟨lt_irrefl x, Or.inr (ih bs hr)⟩

theorem lexLt_false_trans (a : List Char) :
    ∀ b c, lexLt a b = false → lexLt b c = false → lexLt a c = false := by
  induction a with
  | nil =>
    intro b c hab hbc
    cases b with
    | nil => exact hbc
    | cons y bs => simp [lexLt] at hab
  | cons x as ih =>
    intro b c hab hbc
    cases c with
    | nil => simp [lexLt]
    | cons z cs =>
      cases b with
      | nil => simp [lexLt] at hbc
      | cons y bs =>
        simp only [lexLt, Bool.or_eq_false_iff, decide_eq_false_iff_not,
          Bool.and_eq_false_iff, decide_eq_true_eq] at hab hbc ⊢
        have hyx : y ≤ x := le_of_not_lt hab.1
        have hzy : z ≤ y := le_of_not_lt hbc.1
        refine ⟨not_lt_of_ge (le_trans hzy hyx), ?_⟩
        by_cases hxz : x = z
        · right
          have hxy : x = y := le_antisymm (hxz ▸ hzy) hyx
          have h1 : lexLt as bs = false := by
            rcases hab.2 with h | h
            · exact absurd hxy h
            · exact h
          have h2 : lexLt bs cs = false := by
            rcases hbc.2 with h | h
            · exact absurd (by rw [← hxy]; exact hxz) h
            · exact h
          exact ih bs cs h1 h2
        · left
          exact hxz

theorem mem_orderedInsertDesc (key : α → List Char) (a x : α) (l : List α) :
    x ∈ orderedInsertDesc key a l ↔ x = a ∨ x ∈ l := by
  induction l with
  | nil => simp [orderedInsertDesc]
  | cons b t ih =>
    unfold orderedInsertDesc
    split
    · simp only [List.mem_cons, ih]
      tauto
    · simp only [List.mem_cons]

theorem pairwise_orderedInsertDesc (key : α → List Char) (a : α) (l : List α)
    (h : l.Pairwise (fun u v => lexLt (key u) (key v) = false)) :
    (orderedInsertDesc key a l).Pairwise
      (fun u v => lexLt (key u) (key v) = false) := by
  induction l with
  | nil => simp [orderedInsertDesc]
  | cons b t ih =>
    rw [List.pairwise_cons] at h
    unfold orderedInsertDesc
    split
    · rename_i hlt
      rw [List.pairwise_cons]
      refine ⟨?_, ih h.2⟩
      intro x hx
      rcases (mem_orderedInsertDesc key a x t).mp hx with rfl | hxt
      · exact lexLt_asymm _ _ hlt
      · exact h.1 x hxt
    · rename_i hnlt
      rw [List.pairwise_cons]
      refine ⟨?_, List.pairwise_cons.mpr h⟩
      intro x hx
      rcases List.mem_cons.mp hx with rfl | hxt
      · exact Bool.eq_false_iff.mpr hnlt
      · exact lexLt_false_trans _ _ _ (Bool.eq_false_iff.mpr hnlt) (h.1 x hxt)

theorem pairwise_sortDesc (key : α → List Char) (l : List α) :
    (sortDesc key l).Pairwise (fun u v => lexLt (key u) (key v) = false) := by
  induction l with
  | nil => simp [sortDesc]
  | cons b t ih => exact pairwise_orderedInsertDesc key b _ ih

theorem length_applyLimit_le (limit : Int) (h : 0 ≤ limit) (l : List α) :
    (applyLimit limit l).length ≤ limit.toNat := by
  unfold applyLimit
  rw [if_neg (not_lt.mpr h)]
  rw [List.length_take]
  exact min_le_left _ _

theorem pairwise_applyLimit {R : α → α → Prop} (limit : Int) (l : List α)
    (h : l.Pairwise R) : (applyLimit limit l).Pairwise R := by
  unfold applyLimit
  split
  · exact h
  · exact h.sublist (List.take_sublist _ _)

/-- C8 (amended): the flat query result is the history, pinned, preset
matches in that fixed order (settings never searched); with a
non-negative limit (default 20 when absent) each table contributes at
most `limit` items; each table's rows are ordered most-recent-first by
creation timestamp; and every item carries its record-kind tag.  (A
negative caller-supplied limit means no limit, see the counterexample.) -/
theorem memoryQuery_spec (req : MemoryQueryRequest) (tbl : Tables)
    (h : 0 ≤ req.limit.getD 20) :
    memoryQuery req tbl =
      queryHistoryPart req tbl ++ queryPinnedPart req tbl ++ queryPresetPart req tbl ∧
    ((queryHistoryPart req tbl).length : Int) ≤ req.limit.getD 20 ∧
    ((queryPinnedPart req tbl).length : Int) ≤ req.limit.getD 20 ∧
    ((queryPresetPart req tbl).length : Int) ≤ req.limit.getD 20 ∧
    (histRowsFor req tbl).Pairwise
      (fun u v => lexLt u.created_at v.created_at = false) ∧
    (pinnedRowsFor req tbl).Pairwise
      (fun u v => lexLt u.created_at v.created_at = false) ∧
    (presetRowsFor req tbl).Pairwise
      (fun u v => lexLt u.created_at v.created_at = false) ∧
    (∀ i ∈ queryHistoryPart req tbl, i.type = "history".toList) ∧
    (∀ i ∈ queryPinnedPart req tbl, i.type = "pinned".toList) ∧
    (∀ i ∈ queryPresetPart req tbl, i.type = "preset".toList) := by
  refine ⟨rfl, ?_, ?_, ?_, ?_, ?_, ?_, ?_, ?_, ?_⟩
  · have h1 := length_applyLimit_le (req.limit.getD 20) h
      (sortDesc (fun r : HistoryRow => r.created_at)
        (tbl.history.filter (fun r => sqlLike (likePattern req.query) r.messages_json)))
    simp only [queryHistoryPart, histRowsFor, List.length_map]
    omega
  · have h1 := length_applyLimit_le (req.limit.getD 20) h
      (sortDesc (fun r : PinnedRow => r.created_at)
        (tbl.pinned.filter (fun r => sqlLike (likePattern req.query) r.text)))
    simp only [queryPinnedPart, pinnedRowsFor, List.length_map]
    omega
  · have h1 := length_applyLimit_le (req.limit.getD 20) h
      (sortDesc (fun r : PresetRow => r.created_at)
        (tbl.presets.filter (fun r => sqlLike (likePattern req.query) r.name)))
    simp only [queryPresetPart, presetRowsFor, List.length_map]
    omega
  · exact pairwise_applyLimit _ _ (pairwise_sortDesc _ _)
  · exact pairwise_applyLimit _ _ (pairwise_sortDesc _ _)
  · exact pairwise_applyLimit _ _ (pairwise_sortDesc _ _)
  · intro i hi
    rcases List.mem_map.mp hi with ⟨r, _, rfl⟩
    rfl
  · intro i hi
    rcases List.mem_map.mp hi with ⟨r, _, rfl⟩
    rfl
  · intro i hi
    rcases List.mem_map.mp hi with ⟨r, _, rfl⟩
    rfl

/-- C8 witness: with limit 1 and two matching history rows, only one
item is returned from the history table. -/
theorem memoryQuery_spec_witness :
    ((queryHistoryPart ⟨"x".toList, some 1⟩
      ⟨[⟨"i1".toList, "2024-01-01T00:00:00+00:00".toList, "x".toList, none, none⟩,
        ⟨"i2".toList, "2024-02-01T00:00:00+00:00".toList, "xy".toList, none, none⟩],
        [], [], []⟩).length : Int) ≤ (1 : Int) := by
  have h := (memoryQuery_spec ⟨"x".toList, some 1⟩
    ⟨[⟨"i1".toList, "2024-01-01T00:00:00+00:00".toList, "x".toList, none, none⟩,
      ⟨"i2".toList, "2024-02-01T00:00:00+00:00".toList, "xy".toList, none, none⟩],
      [], [], []⟩ (by decide)).2.1
  simpa using h

/-- C8 counterexample: a caller-supplied limit of `-1` reaches SQLite's
`LIMIT -1` (no limit), so the history table contributes one item, which
is more than the claimed at-most-limit bound. -/
theorem memoryQuery_negative_limit :
    (queryHistoryPart ⟨[], some (-1)⟩
      ⟨[⟨"i".toList, "t".toList, "x".toList, none, none⟩], [], [], []⟩).length = 1 ∧
    ¬ ((1 : Int) ≤ (-1 : Int)) := by
  constructor
  · rfl
  · decide

theorem countStore_append (a b : List Ev) :
    countStore (a ++ b) = countStore a + countStore b := by
  simp [countStore, List.filter_append]

theorem countDone_append (a b : List Ev) :
    countDone (a ++ b) = countDone a + countDone b := by
  simp [countDone, List.filter_append]

theorem countDone_delta (d : List Char) (l : List Ev) :
    countDone (Ev.delta d :: l) = countDone l := by
  simp [countDone, List.filter]

theorem countStore_delta (d : List Char) (l : List Ev) :
    countStore (Ev.delta d :: l) = countStore l := by
  simp [countStore, List.filter]

theorem ne_nil_of_countDone (l : List Ev) (h : countDone l = 1) : l ≠ [] := by
  intro he
  subst he
  simp [countDone] at h

theorem procLines_inv (lines : List (List Char)) : ∀ st : DecState,
    (procLines st lines).1.buffer = st.buffer ∧
    countStore (procLines st lines).2.1 =
      (if (procLines st lines).2.2 then 1 else 0) ∧
    countDone (procLines st lines).2.1 =
      (if (procLines st lines).2.2 then 1 else 0) ∧
    ((procLines st lines).2.2 = true →
      (procLines st lines).2.1.getLast? =
        some (Ev.done (procLines st lines).1.finish none)) := by
  induction lines with
  | nil => exact fun st => ⟨rfl, rfl, rfl, fun h => Bool.noConfusion h⟩
  | cons line rest ih =>
    intro st
    unfold procLines
    cases hs : stripDataTag line with
    | none => exact ih st
    | some data0 =>
      dsimp only
      by_cases hd : trimChars data0 = "[DONE]".toList
      · rw [if_pos hd]
        exact ⟨rfl, rfl, rfl, fun _ => rfl⟩
      · rw [if_neg hd]
        cases hp : parseJson (trimChars data0) with
        | none => exact ih st
        | some v =>
          dsimp only
          cases hdelta : frameDelta v with
          | some d =>
            dsimp only
            by_cases hde : d.isEmpty
            · rw [if_pos hde]
              exact ih _
            · rw [if_neg hde]
              dsimp only
              set st2 : DecState :=
                { st with
                  finish := (frameFinishReason v).getD st.finish
                  full := st.full ++ d } with hst2
              obtain ⟨ib, is, idn, il⟩ := ih st2
              refine ⟨ib, ?_, ?_, ?_⟩
              · rw [countStore_delta]
                exact is
              · rw [countDone_delta]
                exact idn
              · intro hh
                have hcd : countDone (procLines st2 rest).2.1 = 1 := by
                  rw [idn, if_pos hh]
                have hne := ne_nil_of_countDone _ hcd
                cases hl : (procLines st2 rest).2.1 with
                | nil => exact absurd hl hne
                | cons e es =>
                  rw [List.getLast?_cons_cons, ← hl]
                  exact il hh
          | none => exact ih _

theorem runFrames_inv (fuel : Nat) : ∀ st : DecState,
    countStore (runFrames fuel st).2.1 =
      (if (runFrames fuel st).2.2 then 1 else 0) ∧
    countDone (runFrames fuel st).2.1 =
      (if (runFrames fuel st).2.2 then 1 else 0) ∧
    ((runFrames fuel st).2.2 = true →
      (runFrames fuel st).2.1.getLast? =
        some (Ev.done (runFrames fuel st).1.finish none)) := by
  induction fuel with
  | zero => exact fun st => ⟨rfl, rfl, fun h => Bool.noConfusion h⟩
  | succ fuel ih =>
    intro st
    unfold runFrames
    cases hs : splitFrame st.buffer with
    | none => exact ⟨rfl, rfl, fun h => Bool.noConfusion h⟩
    | some br =>
      obtain ⟨blk, r⟩ := br
      dsimp only
      obtain ⟨pb, ps, pd, pl⟩ := procLines_inv (linesOf blk) { st with buffer := r }
      by_cases hh : (procLines { st with buffer := r } (linesOf blk)).2.2 = true
      · rw [if_pos hh]
        exact ⟨ps, pd, fun _ => pl hh⟩
      · rw [if_neg hh]
        dsimp only
        have hh2 : (procLines { st with buffer := r } (linesOf blk)).2.2 = false :=
          Bool.eq_false_iff.mpr hh
        obtain ⟨rs, rd, rl⟩ := ih (procLines { st with buffer := r } (linesOf blk)).1
        refine ⟨?_, ?_, ?_⟩
        · rw [countStore_append, ps, hh2, rs]
          simp
        · rw [countDone_append, pd, hh2, rd]
          simp
        · intro hr
          have hne := ne_nil_of_countDone _ (by rw [rd, hr]; simp)
          rw [List.getLast?_append_of_ne_nil _ hne]
          exact rl hr

theorem feedChunk_inv (st : DecState) (chars : List Char) :
    countStore (feedChunk st chars).2.1 =
      (if (feedChunk st chars).2.2 then 1 else 0) ∧
    countDone (feedChunk st chars).2.1 =
      (if (feedChunk st chars).2.2 then 1 else 0) ∧
    ((feedChunk st chars).2.2 = true →
      (feedChunk st chars).2.1.getLast? =
        some (Ev.done (feedChunk st chars).1.finish none)) :=
  runFrames_inv _ _

theorem runChunks_inv (chunks : List (Except (List Char) (List Nat))) :
    ∀ st : DecState,
    countDone (runChunks st chunks) = 1 ∧
    isDoneEv (runChunks st chunks).getLast? = true ∧
    countStore (runChunks st chunks) =
      (if isErrorDone (runChunks st chunks).getLast? then 0 else 1) := by
  induction chunks with
  | nil => exact fun st => ⟨rfl, rfl, rfl⟩
  | cons chunk rest ih =>
    intro st
    cases chunk with
    | error e => exact ⟨rfl, rfl, rfl⟩
    | ok bytes =>
      unfold runChunks
      dsimp only
      obtain ⟨fs, fd, fl⟩ := feedChunk_inv st (utf8Lossy bytes)
      by_cases hh : (feedChunk st (utf8Lossy bytes)).2.2 = true
      · rw [if_pos hh]
        refine ⟨by rw [fd, if_pos hh], ?_, ?_⟩
        · rw [fl hh]
          rfl
        · rw [fl hh, fs, if_pos hh]
          rfl
      · rw [if_neg hh]
        have hh2 := Bool.eq_false_iff.mpr hh
        obtain ⟨id2, il2, is2⟩ := ih (feedChunk st (utf8Lossy bytes)).1
        have hne := ne_nil_of_countDone _ id2
        refine ⟨?_, ?_, ?_⟩
        · rw [countDone_append, fd, hh2, id2]
          simp
        · rw [List.getLast?_append_of_ne_nil _ hne]
          exact il2
        · rw [countStore_append, fs, hh2,
            List.getLast?_append_of_ne_nil _ hne, is2]
          simp

/-- C1 (amended): every streaming turn emits exactly one terminal event,
as the final event of the trace; the history write count is zero when
that terminal event carries an error (a mid-stream transport failure
writes nothing: the error arm at `router.rs` lines 278-282 returns
without calling `store_history`), and exactly one otherwise (termination
via `[DONE]` or upstream exhaustion). -/
theorem streamEvents_write_discipline (modelId : List Char)
    (chunks : List (Except (List Char) (List Nat))) :
    countDone (streamEvents modelId chunks) = 1 ∧
    isDoneEv (streamEvents modelId chunks).getLast? = true ∧
    countStore (streamEvents modelId chunks) =
      (if isErrorDone (streamEvents modelId chunks).getLast? then 0 else 1) := by
  obtain ⟨hd, hl, hs⟩ := runChunks_inv chunks initDecState
  have hne := ne_nil_of_countDone _ hd
  unfold streamEvents
  have hlast : (Ev.meta modelId ("openrouter".toList) :: runChunks initDecState chunks).getLast? =
      (runChunks initDecState chunks).getLast? := by
    cases hc : runChunks initDecState chunks with
    | nil => exact absurd hc hne
    | cons e es => rw [List.getLast?_cons_cons]
  refine ⟨?_, ?_, ?_⟩
  · rw [show countDone (Ev.meta modelId ("openrouter".toList) :: runChunks initDecState chunks) =
      countDone (runChunks initDecState chunks) from by simp [countDone, List.filter]]
    exact hd
  · rw [hlast]
    exact hl
  · rw [hlast,
      show countStore (Ev.meta modelId ("openrouter".toList) :: runChunks initDecState chunks) =
        countStore (runChunks initDecState chunks) from by simp [countStore, List.filter]]
    exact hs

/-- C1 counterexample: a transport error after zero decoded frames ends
the stream with the terminal error event but writes NO history record,
contradicting the claim that a record is still written. -/
theorem streamEvents_error_no_write :
    streamEvents ("m".toList) [Except.error ("boom".toList)] =
      [Ev.meta ("m".toList) ("openrouter".toList),
        Ev.done ("error".toList) (some ("boom".toList))] ∧
    countStore (streamEvents ("m".toList) [Except.error ("boom".toList)]) = 0 := by
  constructor
  · rfl
  · rfl

theorem splitFrame_structure (l : List Char) :
    ∀ blk r, splitFrame l = some (blk, r) → l = blk ++ '\n' :: '\n' :: r := by
  induction l with
  | nil => intro blk r h; cases h
  | cons a t ih =>
    intro blk r h
    cases t with
    | nil => cases h
    | cons b t2 =>
      unfold splitFrame at h
      by_cases hab : a = '\n' ∧ b = '\n'
      · rw [if_pos hab] at h
        obtain ⟨h1, h2⟩ := Prod.mk.injEq _ _ _ _ |>.mp (Option.some.inj h)
        rw [← h1, ← h2, hab.1, hab.2]
        rfl
      · rw [if_neg hab] at h
        cases hs : splitFrame (b :: t2) with
        | none => rw [hs] at h; cases h
        | some p =>
          rw [hs] at h
          obtain ⟨blk2, r2⟩ := p
          obtain ⟨h1, h2⟩ := Prod.mk.injEq _ _ _ _ |>.mp (Option.some.inj h)
          rw [← h1, ← h2]
          rw [List.cons_append]
          rw [← ih blk2 r2 hs]

theorem splitFrame_shorter (l blk r : List Char) (h : splitFrame l = some (blk, r)) :
    r.length + 2 ≤ l.length := by
  have := splitFrame_structure l blk r h
  rw [this]
  simp

theorem splitFrame_append (l c : List Char) :
    ∀ blk r, splitFrame l = some (blk, r) →
      splitFrame (l ++ c) = some (blk, r ++ c) := by
  induction l with
  | nil => intro blk r h; cases h
  | cons a t ih =>
    intro blk r h
    cases t with
    | nil => cases h
    | cons b t2 =>
      unfold splitFrame at h
      rw [List.cons_append, List.cons_append]
      unfold splitFrame
      by_cases hab : a = '\n' ∧ b = '\n'
      · rw [if_pos hab] at h
        rw [if_pos hab]
        obtain ⟨h1, h2⟩ := Prod.mk.injEq _ _ _ _ |>.mp (Option.some.inj h)
        rw [← h1, ← h2]
      · rw [if_neg hab] at h
        rw [if_neg hab]
        cases hs : splitFrame (b :: t2) with
        | none => rw [hs] at h; cases h
        | some p =>
          rw [hs] at h
          obtain ⟨blk2, r2⟩ := p
          obtain ⟨h1, h2⟩ := Prod.mk.injEq _ _ _ _ |>.mp (Option.some.inj h)
          have hind := ih blk2 r2 hs
          rw [← List.cons_append, hind]
          rw [← h1, ← h2]

theorem runFrames_of_splitFrame_none (st : DecState)
    (hs : splitFrame st.buffer = none) :
    ∀ fuel, runFrames fuel st = (st, [], false) := by
  intro fuel
  cases fuel with
  | zero => rfl
  | succ k =>
    unfold runFrames
    rw [hs]

theorem procLines_congr (lines : List (List Char)) :
    ∀ (bu1 bu2 f fi : List Char),
      procLines ⟨bu1, f, fi⟩ lines =
        (⟨bu1, (procLines ⟨bu2, f, fi⟩ lines).1.full,
          (procLines ⟨bu2, f, fi⟩ lines).1.finish⟩,
          (procLines ⟨bu2, f, fi⟩ lines).2) := by
  induction lines with
  | nil => intro bu1 bu2 f fi; rfl
  | cons line rest ih =>
    intro bu1 bu2 f fi
    unfold procLines
    cases hs : stripDataTag line with
    | none => exact ih bu1 bu2 f fi
    | some data0 =>
      dsimp only
      by_cases hd : trimChars data0 = "[DONE]".toList
      · rw [if_pos hd, if_pos hd]
      · rw [if_neg hd, if_neg hd]
        cases hp : parseJson (trimChars data0) with
        | none => exact ih bu1 bu2 f fi
        | some v =>
          dsimp only
          cases hdelta : frameDelta v with
          | some d =>
            dsimp only
            by_cases hde : d.isEmpty
            · rw [if_pos hde, if_pos hde]
              exact ih bu1 bu2 _ _
            · rw [if_neg hde, if_neg hde]
              dsimp only
              rw [ih bu1 bu2 (f ++ d) ((frameFinishReason v).getD fi)]
          | none =>
            dsimp only
            exact ih bu1 bu2 _ _

theorem procLines_buffer (st : DecState) (lines : List (List Char)) :
    (procLines st lines).1.buffer = st.buffer :=
  (procLines_inv lines st).1

theorem runFrames_fuel (f1 : Nat) : ∀ (f2 : Nat) (st : DecState),
    st.buffer.length ≤ f1 → st.buffer.length ≤ f2 →
    runFrames f1 st = runFrames f2 st := by
  induction f1 with
  | zero =>
    intro f2 st h1 _
    have hb : st.buffer = [] := List.eq_nil_of_length_eq_zero (Nat.le_zero.mp h1)
    have hs : splitFrame st.buffer = none := by rw [hb]; rfl
    rw [runFrames_of_splitFrame_none st hs, runFrames_of_splitFrame_none st hs]
  | succ n ih =>
    intro f2 st h1 h2
    cases hs : splitFrame st.buffer with
    | none =>
      rw [runFrames_of_splitFrame_none st hs, runFrames_of_splitFrame_none st hs]
    | some p =>
      obtain ⟨blk, r⟩ := p
      cases f2 with
      | zero =>
        have hb : st.buffer = [] := List.eq_nil_of_length_eq_zero (Nat.le_zero.mp h2)
        rw [hb] at hs
        cases hs
      | succ m =>
        unfold runFrames
        rw [hs]
        dsimp only
        by_cases hh : (procLines { st with buffer := r } (linesOf blk)).2.2 = true
        · rw [if_pos hh, if_pos hh]
        · rw [if_neg hh, if_neg hh]
          have hlen : (procLines { st with buffer := r } (linesOf blk)).1.buffer.length ≤ n := by
            rw [procLines_buffer]
            have := splitFrame_shorter st.buffer blk r hs
            show r.length ≤ n
            omega
          have hlen2 : (procLines { st with buffer := r } (linesOf blk)).1.buffer.length ≤ m := by
            rw [procLines_buffer]
            have := splitFrame_shorter st.buffer blk r hs
            show r.length ≤ m
            omega
          rw [ih m _ hlen hlen2]

theorem runFrames_no_frame_left (fuel : Nat) : ∀ st : DecState,
    st.buffer.length ≤ fuel → (runFrames fuel st).2.2 = false →
    splitFrame (runFrames fuel st).1.buffer = none := by
  induction fuel with
  | zero =>
    intro st h1 _
    have hb : st.buffer = [] := List.eq_nil_of_length_eq_zero (Nat.le_zero.mp h1)
    show splitFrame st.buffer = none
    rw [hb]
    rfl
  | succ n ih =>
    intro st h1 hflag
    cases hs : splitFrame st.buffer with
    | none =>
      rw [runFrames_of_splitFrame_none st hs]
      exact hs
    | some p =>
      obtain ⟨blk, r⟩ := p
      unfold runFrames at hflag ⊢
      rw [hs] at hflag ⊢
      dsimp only at hflag ⊢
      by_cases hh : (procLines { st with buffer := r } (linesOf blk)).2.2 = true
      · rw [if_pos hh] at hflag ⊢
        rw [hh] at hflag
        cases hflag
      · rw [if_neg hh] at hflag ⊢
        dsimp only at hflag ⊢
        refine ih _ ?_ hflag
        rw [procLines_buffer]
        have := splitFrame_shorter st.buffer blk r hs
        show r.length ≤ n
        omega

theorem feedChunk_eq_feedNext : ∀ (n : Nat) (st : DecState) (b : List Char),
    st.buffer.length = n →
    feedChunk st b = feedNext (runFrames st.buffer.length st) b := by
  intro n
  induction n using Nat.strong_induction_on with
  | _ n ih =>
    intro st b hn
    cases hs : splitFrame st.buffer with
    | none =>
      rw [runFrames_of_splitFrame_none st hs]
      unfold feedNext
      simp
    | some p =>
      obtain ⟨blk, r⟩ := p
      have hshort := splitFrame_shorter st.buffer blk r hs
      obtain ⟨m, hm⟩ : ∃ m, st.buffer.length = m + 1 :=
        ⟨st.buffer.length - 1, by omega⟩
      have hsb : splitFrame (st.buffer ++ b) = some (blk, r ++ b) :=
        splitFrame_append st.buffer b blk r hs
      have hbuf : (procLines { st with buffer := r } (linesOf blk)).1.buffer = r :=
        procLines_buffer _ _
      have hstep1 : runFrames st.buffer.length st =
          (if (procLines { st with buffer := r } (linesOf blk)).2.2 = true then
            procLines { st with buffer := r } (linesOf blk)
          else
            ((runFrames m (procLines { st with buffer := r } (linesOf blk)).1).1,
              (procLines { st with buffer := r } (linesOf blk)).2.1 ++
                (runFrames m (procLines { st with buffer := r } (linesOf blk)).1).2.1,
              (runFrames m (procLines { st with buffer := r } (linesOf blk)).1).2.2)) := by
        conv_lhs => rw [hm]
        rw [runFrames, hs]
      have hlen2 : (st.buffer ++ b).length = (m + b.length) + 1 := by
        rw [List.length_append, hm]
        omega
      have hstep2 : feedChunk st b =
          (if (procLines { st with buffer := r ++ b } (linesOf blk)).2.2 = true then
            procLines { st with buffer := r ++ b } (linesOf blk)
          else
            ((runFrames (m + b.length)
                (procLines { st with buffer := r ++ b } (linesOf blk)).1).1,
              (procLines { st with buffer := r ++ b } (linesOf blk)).2.1 ++
                (runFrames (m + b.length)
                  (procLines { st with buffer := r ++ b } (linesOf blk)).1).2.1,
              (runFrames (m + b.length)
                (procLines { st with buffer := r ++ b } (linesOf blk)).1).2.2)) := by
        show runFrames (st.buffer ++ b).length { st with buffer := st.buffer ++ b } = _
        rw [hlen2, runFrames]
        dsimp only
        rw [hsb]
      have hcongr := procLines_congr (linesOf blk) (r ++ b) r st.full st.finish
      rw [hstep2, hstep1, hcongr]
      dsimp only
      by_cases hflag : (procLines { st with buffer := r } (linesOf blk)).2.2 = true
      · rw [if_pos hflag, if_pos hflag]
        unfold feedNext
        dsimp only
        rw [if_pos hflag, hbuf]
        rw [← hflag]
      · rw [if_neg hflag, if_neg hflag]
        have hIH : feedChunk (procLines { st with buffer := r } (linesOf blk)).1 b =
            feedNext (runFrames
              (procLines { st with buffer := r } (linesOf blk)).1.buffer.length
              (procLines { st with buffer := r } (linesOf blk)).1) b := by
          refine ih r.length (by omega) _ b ?_
          rw [hbuf]
        have hA : runFrames (m + b.length)
            (⟨r ++ b, (procLines { st with buffer := r } (linesOf blk)).1.full,
              (procLines { st with buffer := r } (linesOf blk)).1.finish⟩ : DecState) =
            feedChunk (procLines { st with buffer := r } (linesOf blk)).1 b := by
          show _ = runFrames
            ((procLines { st with buffer := r } (linesOf blk)).1.buffer ++ b).length
            { (procLines { st with buffer := r } (linesOf blk)).1 with
              buffer := (procLines { st with buffer := r } (linesOf blk)).1.buffer ++ b }
          rw [hbuf]
          exact runFrames_fuel (m + b.length) ((r ++ b).length) _
            (by simp; omega) (by simp)
        have hB : runFrames
            (procLines { st with buffer := r } (linesOf blk)).1.buffer.length
            (procLines { st with buffer := r } (linesOf blk)).1 =
            runFrames m (procLines { st with buffer := r } (linesOf blk)).1 := by
          refine runFrames_fuel _ m _ (le_refl _) ?_
          rw [hbuf]
          omega
        rw [hA, hIH, hB]
        unfold feedNext
        dsimp only
        by_cases hflag2 : (runFrames m (procLines { st with buffer := r }
            (linesOf blk)).1).2.2 = true
        · rw [if_pos hflag2, if_pos hflag2]
        · rw [if_neg hflag2, if_neg hflag2]
          dsimp only
          rw [List.append_assoc]

theorem feedChunk_split (st : DecState) (a b : List Char) :
    feedChunk st (a ++ b) = feedNext (feedChunk st a) b := by
  have h := feedChunk_eq_feedNext ({ st with buffer := st.buffer ++ a }).buffer.length
    { st with buffer := st.buffer ++ a } b rfl
  have e1 : feedChunk st (a ++ b) = feedChunk { st with buffer := st.buffer ++ a } b := by
    show runFrames _ _ = runFrames _ _
    dsimp only
    rw [← List.append_assoc]
  rw [e1, h]
  rfl

theorem utf8Encode_cons (c : Char) (cs : List Char) :
    utf8Encode (c :: cs) = utf8EncodeChar c ++ utf8Encode cs := by
  simp [utf8Encode]

theorem utf8LossyF_roundtrip : ∀ (cs : List Char) (fuel : Nat),
    (utf8Encode cs).length < fuel → utf8LossyF fuel (utf8Encode cs) = cs := by
  intro cs
  induction cs with
  | nil =>
    intro fuel _
    cases fuel <;> rfl
  | cons c cs ih =>
    intro fuel h
    rw [utf8Encode_cons] at h ⊢
    have hv : c.toNat < 0xd800 ∨ (0xdfff < c.toNat ∧ c.toNat < 0x110000) := c.valid
    obtain ⟨f, rfl⟩ : ∃ f, fuel = f + 1 := ⟨fuel - 1, by omega⟩
    by_cases h1 : c.toNat < 0x80
    · have henc : utf8EncodeChar c = [c.toNat] := by
        unfold utf8EncodeChar
        rw [if_pos h1]
      rw [henc] at h ⊢
      have hlen : (utf8Encode cs).length < f := by
        rw [List.length_append] at h
        simp at h
        omega
      rw [List.singleton_append, utf8LossyF.eq_def]
      dsimp only
      rw [if_pos h1, Char.ofNat_toNat, ih f hlen]
    · by_cases h2 : c.toNat < 0x800
      · have henc : utf8EncodeChar c =
            [0xC0 + c.toNat / 0x40, 0x80 + c.toNat % 0x40] := by
          unfold utf8EncodeChar
          rw [if_neg h1, if_pos h2]
        rw [henc] at h ⊢
        have hlen : (utf8Encode cs).length < f := by
          rw [List.length_append] at h
          simp at h
          omega
        simp only [List.cons_append, List.nil_append]
        rw [utf8LossyF.eq_def]
        dsimp only
        rw [if_neg (by omega), if_pos (by omega), if_pos (by omega)]
        have hval : (0xC0 + c.toNat / 0x40 - 0xC0) * 0x40 +
            (0x80 + c.toNat % 0x40 - 0x80) = c.toNat := by omega
        rw [hval, Char.ofNat_toNat, ih f hlen]
      · by_cases h3 : c.toNat < 0x10000
        · have henc : utf8EncodeChar c = [0xE0 + c.toNat / 0x1000,
              0x80 + (c.toNat / 0x40) % 0x40, 0x80 + c.toNat % 0x40] := by
            unfold utf8EncodeChar
            rw [if_neg h1, if_neg h2, if_pos h3]
          rw [henc] at h ⊢
          have hlen : (utf8Encode cs).length < f := by
            rw [List.length_append] at h
            simp at h
            omega
          simp only [List.cons_append, List.nil_append]
          rw [utf8LossyF.eq_def]
          dsimp only
          rw [if_neg (by omega), if_neg (by omega), if_pos (by omega)]
          have hcont : utf8Cont3Ok (0xE0 + c.toNat / 0x1000)
              (0x80 + (c.toNat / 0x40) % 0x40) = true := by
            unfold utf8Cont3Ok
            split_ifs with he1 he2 <;> simp only [decide_eq_true_eq] <;>
              rcases hv with hv | hv <;> omega
          rw [if_pos hcont]
          rw [if_pos (by omega)]
          have hval : (0xE0 + c.toNat / 0x1000 - 0xE0) * 0x1000 +
              (0x80 + (c.toNat / 0x40) % 0x40 - 0x80) * 0x40 +
              (0x80 + c.toNat % 0x40 - 0x80) = c.toNat := by omega
          rw [hval, Char.ofNat_toNat, ih f hlen]
        · have hup : c.toNat < 0x110000 := by
            rcases hv with hv | hv
            · omega
            · exact hv.2
          have henc : utf8EncodeChar c = [0xF0 + c.toNat / 0x40000,
              0x80 + (c.toNat / 0x1000) % 0x40, 0x80 + (c.toNat / 0x40) % 0x40,
              0x80 + c.toNat % 0x40] := by
            unfold utf8EncodeChar
            rw [if_neg h1, if_neg h2, if_neg h3]
          rw [henc] at h ⊢
          have hlen : (utf8Encode cs).length < f := by
            rw [List.length_append] at h
            simp at h
            omega
          simp only [List.cons_append, List.nil_append]
          rw [utf8LossyF.eq_def]
          dsimp only
          rw [if_neg (by omega), if_neg (by omega), if_neg (by omega),
            if_pos (by omega)]
          have hcont : utf8Cont4Ok (0xF0 + c.toNat / 0x40000)
              (0x80 + (c.toNat / 0x1000) % 0x40) = true := by
            unfold utf8Cont4Ok
            split_ifs with he1 he2 <;> simp only [decide_eq_true_eq] <;> omega
          rw [if_pos hcont]
          rw [if_pos (by omega)]
          rw [if_pos (by omega)]
          have hval : (0xF0 + c.toNat / 0x40000 - 0xF0) * 0x40000 +
              (0x80 + (c.toNat / 0x1000) % 0x40 - 0x80) * 0x1000 +
              (0x80 + (c.toNat / 0x40) % 0x40 - 0x80) * 0x40 +
              (0x80 + c.toNat % 0x40 - 0x80) = c.toNat := by omega
          rw [hval, Char.ofNat_toNat, ih f hlen]

theorem utf8Lossy_encode (cs : List Char) : utf8Lossy (utf8Encode cs) = cs :=
  utf8LossyF_roundtrip cs ((utf8Encode cs).length + 1) (Nat.lt_succ_self _)

theorem runChunks_join (css : List (List Char)) : ∀ st : DecState,
    splitFrame st.buffer = none →
    runChunks st [Except.ok (utf8Encode css.flatten)] =
      runChunks st (css.map (fun cs => Except.ok (utf8Encode cs))) := by
  induction css with
  | nil =>
    intro st hsf
    have hsf2 : splitFrame ({ st with buffer := st.buffer ++ ([] : List Char) }).buffer = none := by
      dsimp only
      rw [List.append_nil]
      exact hsf
    unfold runChunks
    dsimp only
    rw [show utf8Lossy (utf8Encode (List.flatten ([] : List (List Char)))) =
      ([] : List Char) from rfl]
    unfold feedChunk
    rw [runFrames_of_splitFrame_none _ hsf2]
    dsimp only
    rw [if_neg (by simp)]
    rfl
  | cons cs css ih =>
    intro st hsf
    have hdec : utf8Lossy (utf8Encode (List.flatten (cs :: css))) =
        cs ++ List.flatten css := by
      rw [show List.flatten (cs :: css) = cs ++ List.flatten css from rfl]
      exact utf8Lossy_encode _
    unfold runChunks
    rw [List.map_cons]
    dsimp only
    rw [hdec, utf8Lossy_encode cs, feedChunk_split st cs (List.flatten css)]
    by_cases hh : (feedChunk st cs).2.2 = true
    · have hfn : feedNext (feedChunk st cs) (List.flatten css) =
          ({ (feedChunk st cs).1 with
            buffer := (feedChunk st cs).1.buffer ++ List.flatten css },
            (feedChunk st cs).2.1, true) := by
        unfold feedNext
        rw [if_pos hh]
      rw [hfn]
      dsimp only
      rw [if_pos rfl, if_pos hh]
    · have hh2 : (feedChunk st cs).2.2 = false := Bool.eq_false_iff.mpr hh
      have hfn : feedNext (feedChunk st cs) (List.flatten css) =
          ((feedChunk (feedChunk st cs).1 (List.flatten css)).1,
            (feedChunk st cs).2.1 ++
              (feedChunk (feedChunk st cs).1 (List.flatten css)).2.1,
            (feedChunk (feedChunk st cs).1 (List.flatten css)).2.2) := by
        unfold feedNext
        rw [if_neg hh]
      rw [hfn]
      dsimp only
      rw [if_neg hh]
      have hnofr : splitFrame (feedChunk st cs).1.buffer = none :=
        runFrames_no_frame_left _ _ (le_refl _) hh2
      have hIH := ih (feedChunk st cs).1 hnofr
      rw [← hIH]
      unfold runChunks
      dsimp only
      rw [utf8Lossy_encode]
      by_cases hg : (feedChunk (feedChunk st cs).1 (List.flatten css)).2.2 = true
      · rw [if_pos hg, if_pos hg]
      · rw [if_neg hg, if_neg hg]
        rw [List.append_assoc]
        rfl

/-- C2 (amended): splitting the upstream byte sequence at UTF-8
character boundaries is event-equivalent to feeding it whole: for every
sequence of character chunks, feeding their encodings one by one yields
exactly the trace of feeding the encoding of their concatenation as a
single chunk.  (Splitting inside one character's byte sequence is NOT
equivalent, because each chunk is decoded lossily on its own — see the
counterexample.) -/
theorem streamEvents_chunk_insensitive (modelId : List Char)
    (css : List (List Char)) :
    streamEvents modelId (css.map (fun cs => Except.ok (utf8Encode cs))) =
      streamEvents modelId [Except.ok (utf8Encode css.flatten)] := by
  unfold streamEvents
  rw [runChunks_join css initDecState rfl]

set_option maxRecDepth 10000 in
/-- C2 counterexample: splitting the fixed upstream byte sequence of one
delta frame in the middle of the two-byte character `é` (after byte 40,
between `0xC3` and `0xA9`) changes the emitted events — each chunk is
decoded with `from_utf8_lossy` on its own, so the split turns the delta
text into two replacement characters — refuting the claim for arbitrary
split points. -/
theorem streamEvents_byte_split_cex :
    ((utf8Encode cexFrame).take 40 ++ (utf8Encode cexFrame).drop 40 =
      utf8Encode cexFrame) ∧
    streamEvents ("m".toList)
        [Except.ok ((utf8Encode cexFrame).take 40),
          Except.ok ((utf8Encode cexFrame).drop 40)] ≠
      streamEvents ("m".toList) [Except.ok (utf8Encode cexFrame)] := by
  constructor
  · exact List.take_append_drop 40 (utf8Encode cexFrame)
  · decide

end Halodesk
